import Mathlib

/-!
Verification of the `pechorka/migrations` Go library against its
natural-language specification.

The development shallowly embeds the library:
* `SplitStatements` (pkg/utils): the SQL statement splitter, a byte-scanning
  lexer, embedded here as a character-scanning step function `splitStep`
  iterated by `splitRun` with fuel equal to the input length (each step
  consumes at least one character, so the fuel is always sufficient).
* `QuoteIdentBacktick` (pkg/utils): backtick identifier quoting for MySQL.
* `InTx` (pkg/utils): transactional wrapper; modelled with an explicit
  database state, an operation log and a driver-behaviour oracle `DbEnv`.
* `Apply` / `applySqlite` / `applyMysql` / `applyPostgres` /
  `validateOptions` (migrations.go): the migration applier, embedded with
  explicit state passing.  Executing a SQL statement is modelled by its
  effect at the call site: the bookkeeping CREATE ensures the versions
  table exists, the bookkeeping INSERT appends a version, and a migration
  statement appends its text to the list of applied statements.
-/

namespace Migrations

/-! ## Statement splitter (pkg/utils SplitStatements) -/

/-- Go `unicode.IsSpace`, used by `strings.TrimSpace`: Latin-1 whitespace
plus the Unicode White_Space code points. -/
def goIsSpace (c : Char) : Bool :=
  c == '\t' || c == '\n' || c == Char.ofNat 0x0B || c == Char.ofNat 0x0C ||
  c == '\r' || c == ' ' || c == Char.ofNat 0x85 || c == Char.ofNat 0xA0 ||
  c == Char.ofNat 0x1680 ||
  (Char.ofNat 0x2000 ≤ c && c ≤ Char.ofNat 0x200A) ||
  c == Char.ofNat 0x2028 || c == Char.ofNat 0x2029 || c == Char.ofNat 0x202F ||
  c == Char.ofNat 0x205F || c == Char.ofNat 0x3000

/-- Go `strings.TrimSpace` on a character list: drop leading and trailing
whitespace. -/
def goTrimSpace (l : List Char) : List Char :=
  (((l.dropWhile goIsSpace).reverse).dropWhile goIsSpace).reverse

/-- The scanner state of `SplitStatements`: the emitted statements `out`,
the accumulation buffer `b`, the three quote flags `inS`/`inD`/`inB`, the
line-comment flag, the block-comment nesting level, and the dollar-quote
tag (empty when not inside a dollar-quoted block). -/
structure SplitState where
  out : List String
  buf : List Char
  inS : Bool
  inD : Bool
  inB : Bool
  inLineComment : Bool
  inBlockComment : Nat
  dollarTag : List Char
deriving DecidableEq

/-- The initial scanner state. -/
def SplitState.init : SplitState :=
  { out := [], buf := [], inS := false, inD := false, inB := false,
    inLineComment := false, inBlockComment := 0, dollarTag := [] }

/-- The `flush` closure of `SplitStatements`: trim the buffer, emit it when
non-empty, and reset the buffer. -/
def flushBuf (st : SplitState) : SplitState :=
  if goTrimSpace st.buf = [] then { st with buf := [] }
  else { st with out := st.out ++ [String.mk (goTrimSpace st.buf)], buf := [] }

/-- Characters allowed inside a dollar-quote tag (the scan between the two
dollar signs): `[A-Za-z0-9_]`. -/
def isTagChar (c : Char) : Bool :=
  ('a' ≤ c && c ≤ 'z') || ('A' ≤ c && c ≤ 'Z') || ('0' ≤ c && c ≤ '9') || c == '_'

/-- Loop body while inside a `--` line comment: only a newline leaves the
mode; nothing reaches the buffer. -/
def stepLineComment (st : SplitState) (c : Char) (rest : List Char) : SplitState × List Char :=
  if c = '\n' then ({ st with inLineComment := false }, rest)
  else (st, rest)

/-- Loop body while inside a block comment: nested openers increment and
closers decrement the depth (consuming two characters); nothing reaches
the buffer.  The source helper `hasPrefixAt(i, p)` is the prefix test
`isPrefixOf` on the remaining input. -/
def stepBlockComment (st : SplitState) (c : Char) (rest : List Char) : SplitState × List Char :=
  if ['/', '*'].isPrefixOf (c :: rest) then
    ({ st with inBlockComment := st.inBlockComment + 1 }, (c :: rest).drop 2)
  else if ['*', '/'].isPrefixOf (c :: rest) then
    ({ st with inBlockComment := st.inBlockComment - 1 }, (c :: rest).drop 2)
  else (st, rest)

/-- Loop body while inside a dollar-quoted block: if the opening tag is the
next text, it closes the block and is copied; otherwise the character is
copied verbatim. -/
def stepDollarQuoted (st : SplitState) (c : Char) (rest : List Char) : SplitState × List Char :=
  if st.dollarTag.isPrefixOf (c :: rest) then
    ({ st with buf := st.buf ++ st.dollarTag, dollarTag := [] },
      (c :: rest).drop st.dollarTag.length)
  else ({ st with buf := st.buf ++ [c] }, rest)

/-- Loop body while inside a single-quoted string: a backslash consumes the
following character as an escaped pair, a doubled quote is copied without
closing, and an unescaped quote closes the mode.  The one-character
lookahead `s[i+1] == x` of the source is the test `rest.head? = some x`. -/
def stepInSingle (st : SplitState) (c : Char) (rest : List Char) : SplitState × List Char :=
  if c = '\\' then
    match rest with
    | d :: rest2 => ({ st with buf := st.buf ++ [c, d] }, rest2)
    | [] => ({ st with buf := st.buf ++ [c] }, [])
  else if c = '\'' then
    if rest.head? = some '\'' then ({ st with buf := st.buf ++ [c, '\''] }, rest.tail)
    else ({ st with inS := false, buf := st.buf ++ [c] }, rest)
  else ({ st with buf := st.buf ++ [c] }, rest)

/-- Loop body while inside a double-quoted string: only the doubling rule,
no backslash rule. -/
def stepInDouble (st : SplitState) (c : Char) (rest : List Char) : SplitState × List Char :=
  if c = '"' then
    if rest.head? = some '"' then ({ st with buf := st.buf ++ [c, '"'] }, rest.tail)
    else ({ st with inD := false, buf := st.buf ++ [c] }, rest)
  else ({ st with buf := st.buf ++ [c] }, rest)

/-- Loop body while inside a backtick-quoted identifier: only the doubling
rule. -/
def stepInBacktick (st : SplitState) (c : Char) (rest : List Char) : SplitState × List Char :=
  if c = '`' then
    if rest.head? = some '`' then ({ st with buf := st.buf ++ [c, '`'] }, rest.tail)
    else ({ st with inB := false, buf := st.buf ++ [c] }, rest)
  else ({ st with buf := st.buf ++ [c] }, rest)

/-- Loop body in default mode: comment openers, dollar-quote opener (a
dollar, a run of tag characters, another dollar), quote openers, the
top-level semicolon which flushes, and ordinary characters. -/
def stepDefault (st : SplitState) (c : Char) (rest : List Char) : SplitState × List Char :=
  if ['-', '-'].isPrefixOf (c :: rest) then ({ st with inLineComment := true }, (c :: rest).drop 2)
  else if ['/', '*'].isPrefixOf (c :: rest) then ({ st with inBlockComment := 1 }, (c :: rest).drop 2)
  else if c = '$' then
    if (rest.dropWhile isTagChar).head? = some '$' then
      let tag := '$' :: (rest.takeWhile isTagChar ++ ['$'])
      ({ st with dollarTag := tag, buf := st.buf ++ tag }, (rest.dropWhile isTagChar).tail)
    else ({ st with buf := st.buf ++ [c] }, rest)
  else if c = '\'' then ({ st with inS := true, buf := st.buf ++ [c] }, rest)
  else if c = '"' then ({ st with inD := true, buf := st.buf ++ [c] }, rest)
  else if c = '`' then ({ st with inB := true, buf := st.buf ++ [c] }, rest)
  else if c = ';' then (flushBuf st, rest)
  else ({ st with buf := st.buf ++ [c] }, rest)

/-- One iteration of the scanning loop of `SplitStatements`, starting at the
head of `l`; returns the new state and the rest of the input (the loop body
advances `i` by one plus any extra characters it consumed).  The mode tests
appear in the order of the source. -/
def splitStep (st : SplitState) (l : List Char) : SplitState × List Char :=
  match l with
  | [] => (st, [])
  | c :: rest =>
    if st.inLineComment then stepLineComment st c rest
    else if 0 < st.inBlockComment then stepBlockComment st c rest
    else if st.dollarTag ≠ [] then stepDollarQuoted st c rest
    else if st.inS then stepInSingle st c rest
    else if st.inD then stepInDouble st c rest
    else if st.inB then stepInBacktick st c rest
    else stepDefault st c rest

/-- The scanning loop of `SplitStatements`: iterate `splitStep` until the
input is exhausted.  Every step consumes at least one character, so fuel
equal to the input length always suffices. -/
def splitRun : Nat → SplitState → List Char → SplitState
  | 0, st, _ => st
  | _ + 1, st, [] => st
  | fuel + 1, st, c :: rest =>
    let p := splitStep st (c :: rest)
    splitRun fuel p.1 p.2

/-- `utils.SplitStatements`: split SQL text into individual statements by
semicolons, never inside quotes, comments or dollar-quoted blocks; trim and
drop empty statements. -/
def SplitStatements (s : String) : List String :=
  (flushBuf (splitRun s.data.length SplitState.init s.data)).out

/-! ## Identifier quoting (pkg/utils QuoteIdentBacktick) -/

/-- `strings.ReplaceAll(s, BT, BTBT)` at character level, where BT is the
backtick character: double every backtick. -/
def replaceBacktick : List Char → List Char
  | [] => []
  | c :: rest =>
    if c = '`' then '`' :: '`' :: replaceBacktick rest
    else c :: replaceBacktick rest

/-- `utils.QuoteIdentBacktick`: wrap in backticks, doubling embedded
backticks. -/
def QuoteIdentBacktick (s : String) : String :=
  "`" ++ String.mk (replaceBacktick s.data) ++ "`"

/-! ## Options and validation (migrations.go) -/

/-- Go `type Dialect int32`; the enumeration constants follow. -/
abbrev Dialect := Int

def dialectBegin : Dialect := 0

def DialectSqlite : Dialect := 1

def DialectPostgres : Dialect := 2

def DialectMysql : Dialect := 3

def dialectEnd : Dialect := 4

/-- `IsValidDialect`: strictly between the begin and end sentinels. -/
def IsValidDialect (d : Dialect) : Bool :=
  decide (dialectBegin < d) && decide (d < dialectEnd)

/-- `Options` controls how `Apply` behaves. -/
structure Options where
  Dialect : Dialect
  TableName : String
deriving DecidableEq

/-- Go `type Option func(opts *Options) error`, modelled as a state update
that may fail with an error message.  (Named `ApplyOption` here because
`Option` is taken by the Lean prelude.) -/
def ApplyOption := Options → Except String Options

/-- `WithDialect` selects the SQL dialect. -/
def WithDialect (d : Dialect) : ApplyOption :=
  fun opts => Except.ok { opts with Dialect := d }

/-- `WithTableName` overrides the bookkeeping table name. -/
def WithTableName (table : String) : ApplyOption :=
  fun opts => Except.ok { opts with TableName := table }

/-- Errors reported by `validateOptions`. -/
inductive OptsError where
  | invalidDialect (d : Dialect)
  | emptyTableName
  | invalidTableName (t : String)
deriving DecidableEq

/-- The rune loop of `validateOptions`: Go iterates `for i, r := range name`
and accepts underscore, letters, and digits at positions with `i > 0` (the
byte index `i` is `0` exactly on the first rune, so a per-rune counter is
equivalent). -/
def validTableRunes : Nat → List Char → Bool
  | _, [] => true
  | i, r :: rest =>
    if r = '_' ∨ ('a' ≤ r ∧ r ≤ 'z') ∨ ('A' ≤ r ∧ r ≤ 'Z') ∨ ('0' ≤ r ∧ r ≤ '9' ∧ 0 < i) then
      validTableRunes (i + 1) rest
    else false

/-- `validateOptions`: dialect must be supported and the table name must be
non-empty and match `[A-Za-z_][A-Za-z0-9_]*`. -/
def validateOptions (opts : Options) : Option OptsError :=
  if IsValidDialect opts.Dialect = false then some (OptsError.invalidDialect opts.Dialect)
  else if opts.TableName = "" then some OptsError.emptyTableName
  else if validTableRunes 0 opts.TableName.data then none
  else some (OptsError.invalidTableName opts.TableName)

/-! ## Database model

The database state visible to the library: the bookkeeping table (absent,
or present with its list of recorded versions in insertion order) and the
cumulative effects of executed migration statements (modelled as the list
of statement texts executed successfully, in order).  A `DbEnv` is the
behaviour of the driver: which operations succeed.  Every database
round-trip is recorded in an operation log. -/

structure Db where
  versions : Option (List Nat)
  applied : List String
deriving DecidableEq

/-- The empty database: no bookkeeping table, no effects. -/
def Db.fresh : Db := { versions := none, applied := [] }

/-- One database round-trip, as recorded in the operation log. -/
inductive DbOp where
  | beginTx
  | execCreate (sql : String)
  | queryMaxVersion (sql : String)
  | execStmt (sql : String)
  | execInsert (sql : String) (version : Nat)
  | commit
  | rollback
deriving DecidableEq

/-- Driver behaviour: which operations succeed.  `execOk` receives the SQL
text and the bound parameters of an `ExecContext` call. -/
structure DbEnv where
  beginOk : Bool
  execOk : String → List Int → Bool
  queryOk : String → Bool
  commitOk : Bool
  rollbackOk : Bool

/-- Errors produced inside the transaction body, mirroring the wrapped
errors of the Go code. -/
inductive TxError where
  | beginFailed
  | createTableFailed (table : String)
  | readVersionFailed
  | stmtFailed (version : Nat) (stmtIdx : Nat)
  | recordFailed (version : Nat)
  | commitFailed
  | withRollbackFailure (e : TxError)
deriving DecidableEq

/-- Errors returned by `Apply`. -/
inductive ApplyError where
  | optionFailed (i : Nat) (msg : String)
  | invalidOptions (e : OptsError)
  | unsupportedDialect (d : Dialect)
  | applyFailed (dialect : Dialect) (e : TxError)
deriving DecidableEq

/-- The result of an `Apply` call: the durable database state, the log of
database round-trips attempted, and the error if any. -/
structure ApplyResult where
  db : Db
  log : List DbOp
  err : Option ApplyError
deriving DecidableEq

/-- `utils.InTx`: begin a transaction, run the body, commit on success and
roll back on error (joining a rollback failure with the original error).
On rollback, and on commit failure, the durable state is the state from
before the transaction. -/
def InTx (env : DbEnv) (db : Db) (fn : Db → Db × List DbOp × Option TxError) :
    Db × List DbOp × Option TxError :=
  if env.beginOk = false then (db, [DbOp.beginTx], some TxError.beginFailed)
  else
    let r := fn db
    match r.2.2 with
    | some e =>
      if env.rollbackOk then (db, DbOp.beginTx :: r.2.1 ++ [DbOp.rollback], some e)
      else (db, DbOp.beginTx :: r.2.1 ++ [DbOp.rollback], some (TxError.withRollbackFailure e))
    | none =>
      if env.commitOk then (r.1, DbOp.beginTx :: r.2.1 ++ [DbOp.commit], none)
      else (db, DbOp.beginTx :: r.2.1 ++ [DbOp.commit], some TxError.commitFailed)

/-! ## Per-dialect SQL fragments (exact strings from migrations.go) -/

def sqliteCreateStmt (t : String) : String :=
  "CREATE TABLE IF NOT EXISTS \"" ++ t ++
    "\" (\n                version INTEGER PRIMARY KEY,\n                applied_at TIMESTAMP NOT NULL DEFAULT CURRENT_TIMESTAMP\n            )"

def sqliteQueryLast (t : String) : String :=
  "SELECT COALESCE(MAX(version), -1) FROM \"" ++ t ++ "\""

def sqliteInsertStmt (t : String) : String :=
  "INSERT INTO \"" ++ t ++ "\" (version) VALUES (?)"

def mysqlCreateStmt (t : String) : String :=
  "CREATE TABLE IF NOT EXISTS " ++ QuoteIdentBacktick t ++
    "(\n\t\t\t    version INT NOT NULL PRIMARY KEY,\n\t\t\t    applied_at TIMESTAMP NOT NULL DEFAULT CURRENT_TIMESTAMP\n\t\t\t)"

def mysqlQueryLast (t : String) : String :=
  "SELECT COALESCE(MAX(version), -1) FROM `" ++ t ++ "`"

def mysqlInsertStmt (t : String) : String :=
  "INSERT INTO `" ++ t ++ "` (version) VALUES (?)"

def postgresCreateStmt (t : String) : String :=
  "CREATE TABLE IF NOT EXISTS \"" ++ t ++
    "\" (\n                version INTEGER PRIMARY KEY,\n                applied_at TIMESTAMP NOT NULL DEFAULT CURRENT_TIMESTAMP\n            )"

def postgresQueryLast (t : String) : String :=
  "SELECT COALESCE(MAX(version), -1) FROM \"" ++ t ++ "\""

def postgresInsertStmt (t : String) : String :=
  "INSERT INTO \"" ++ t ++ "\" (version) VALUES ($1)"

/-! ## The migration applier (migrations.go) -/

/-- `SELECT COALESCE(MAX(version), -1)`: the maximum recorded version, or
`-1` when the table is empty. -/
def maxVersion (l : List Nat) : Int :=
  l.foldr (fun (v : Nat) (m : Int) => max (v : Int) m) (-1)

/-- The inner statement loop shared verbatim by the three apply routines:
`for i, stmt := range stmts` executes each statement of one migration; a
failure aborts with the 1-based statement index.  A successful execution
appends the statement text to the durable effects. -/
def execMigStmts (env : DbEnv) (version : Nat) (i : Nat) (stmts : List String) (db : Db) :
    Db × List DbOp × Option TxError :=
  match stmts with
  | [] => (db, [], none)
  | stmt :: rest =>
    if env.execOk stmt [] then
      let p := execMigStmts env version (i + 1) rest { db with applied := db.applied ++ [stmt] }
      (p.1, DbOp.execStmt stmt :: p.2.1, p.2.2)
    else (db, [DbOp.execStmt stmt], some (TxError.stmtFailed version (i + 1)))

/-- The migration loop shared verbatim by the three apply routines:
`for version, migration := range migrations`, with `version` 1-based;
versions at or below the last applied version are skipped, otherwise the
migration is split, its statements are executed, and the version is
recorded with the bookkeeping insert. -/
def migLoop (env : DbEnv) (insertStmtText : String) (lastAppliedVersion : Int)
    (version : Nat) (migs : List String) (db : Db) : Db × List DbOp × Option TxError :=
  match migs with
  | [] => (db, [], none)
  | migration :: rest =>
    if (version : Int) ≤ lastAppliedVersion then
      migLoop env insertStmtText lastAppliedVersion (version + 1) rest db
    else
      let stmts := SplitStatements migration
      let p := execMigStmts env version 0 stmts db
      match p.2.2 with
      | some e => (p.1, p.2.1, some e)
      | none =>
        if env.execOk insertStmtText [(version : Int)] then
          let db2 := { p.1 with versions := some (p.1.versions.getD [] ++ [version]) }
          let q := migLoop env insertStmtText lastAppliedVersion (version + 1) rest db2
          (q.1, p.2.1 ++ DbOp.execInsert insertStmtText version :: q.2.1, q.2.2)
        else
          (p.1, p.2.1 ++ [DbOp.execInsert insertStmtText version],
            some (TxError.recordFailed version))

/-- The transaction body shared by the three apply routines, parameterised
by the three bookkeeping SQL fragments: ensure the bookkeeping table, read
the last applied version, run the migration loop. -/
def applyBody (createStmt queryLast insertStmt : String) (tableName : String) (env : DbEnv)
    (migrations : List String) (db0 : Db) : Db × List DbOp × Option TxError :=
  if env.execOk createStmt [] = false then
    (db0, [DbOp.execCreate createStmt], some (TxError.createTableFailed tableName))
  else
    let db1 := { db0 with versions := some (db0.versions.getD []) }
    if env.queryOk queryLast = false then
      (db1, [DbOp.execCreate createStmt, DbOp.queryMaxVersion queryLast],
        some TxError.readVersionFailed)
    else
      let lastAppliedVersion := maxVersion (db1.versions.getD [])
      let p := migLoop env insertStmt lastAppliedVersion 1 migrations db1
      (p.1, DbOp.execCreate createStmt :: DbOp.queryMaxVersion queryLast :: p.2.1, p.2.2)

/-- The error wrapping at the end of each apply routine: a transaction
error is wrapped with the dialect for the outer message. -/
def wrapResult (wrapDialect : Dialect) (r : Db × List DbOp × Option TxError) : ApplyResult :=
  match r.2.2 with
  | some e => { db := r.1, log := r.2.1, err := some (ApplyError.applyFailed wrapDialect e) }
  | none => { db := r.1, log := r.2.1, err := none }

/-- The whole of one apply routine, shared skeleton. -/
def applyGeneric (createStmt queryLast insertStmt : String) (wrapDialect : Dialect)
    (tableName : String) (env : DbEnv) (db : Db) (migrations : List String) : ApplyResult :=
  wrapResult wrapDialect
    (InTx env db (applyBody createStmt queryLast insertStmt tableName env migrations))

/-- Statement loop of `applySqlite` (in the source this loop appears
inline inside the function body; it is translated as its own definition
for each dialect because Go closes over the loop variables). -/
def sqliteExecStmts (env : DbEnv) (version : Nat) (i : Nat) (stmts : List String) (db : Db) :
    Db × List DbOp × Option TxError :=
  match stmts with
  | [] => (db, [], none)
  | stmt :: rest =>
    if env.execOk stmt [] then
      let p := sqliteExecStmts env version (i + 1) rest { db with applied := db.applied ++ [stmt] }
      (p.1, DbOp.execStmt stmt :: p.2.1, p.2.2)
    else (db, [DbOp.execStmt stmt], some (TxError.stmtFailed version (i + 1)))

/-- Migration loop of `applySqlite`, translated verbatim from the source;
the bookkeeping insert text is built inside the loop body as in Go. -/
def sqliteMigLoop (env : DbEnv) (tableName : String) (lastAppliedVersion : Int)
    (version : Nat) (migs : List String) (db : Db) : Db × List DbOp × Option TxError :=
  match migs with
  | [] => (db, [], none)
  | migration :: rest =>
    if (version : Int) ≤ lastAppliedVersion then
      sqliteMigLoop env tableName lastAppliedVersion (version + 1) rest db
    else
      let stmts := SplitStatements migration
      let p := sqliteExecStmts env version 0 stmts db
      match p.2.2 with
      | some e => (p.1, p.2.1, some e)
      | none =>
        let insertStmt := sqliteInsertStmt tableName
        if env.execOk insertStmt [(version : Int)] then
          let db2 := { p.1 with versions := some (p.1.versions.getD [] ++ [version]) }
          let q := sqliteMigLoop env tableName lastAppliedVersion (version + 1) rest db2
          (q.1, p.2.1 ++ DbOp.execInsert insertStmt version :: q.2.1, q.2.2)
        else
          (p.1, p.2.1 ++ [DbOp.execInsert insertStmt version],
            some (TxError.recordFailed version))

/-- `applySqlite`. -/
def applySqlite (env : DbEnv) (db : Db) (migrations : List String) (opts : Options) :
    ApplyResult :=
  let r := InTx env db (fun db0 =>
    let createStmt := sqliteCreateStmt opts.TableName
    if env.execOk createStmt [] = false then
      (db0, [DbOp.execCreate createStmt], some (TxError.createTableFailed opts.TableName))
    else
      let db1 := { db0 with versions := some (db0.versions.getD []) }
      let queryLast := sqliteQueryLast opts.TableName
      if env.queryOk queryLast = false then
        (db1, [DbOp.execCreate createStmt, DbOp.queryMaxVersion queryLast],
          some TxError.readVersionFailed)
      else
        let lastAppliedVersion := maxVersion (db1.versions.getD [])
        let p := sqliteMigLoop env opts.TableName lastAppliedVersion 1 migrations db1
        (p.1, DbOp.execCreate createStmt :: DbOp.queryMaxVersion queryLast :: p.2.1, p.2.2))
  match r.2.2 with
  | some e => { db := r.1, log := r.2.1, err := some (ApplyError.applyFailed DialectSqlite e) }
  | none => { db := r.1, log := r.2.1, err := none }

/-- Statement loop of `applyMysql` (verbatim copy in the source). -/
def mysqlExecStmts (env : DbEnv) (version : Nat) (i : Nat) (stmts : List String) (db : Db) :
    Db × List DbOp × Option TxError :=
  match stmts with
  | [] => (db, [], none)
  | stmt :: rest =>
    if env.execOk stmt [] then
      let p := mysqlExecStmts env version (i + 1) rest { db with applied := db.applied ++ [stmt] }
      (p.1, DbOp.execStmt stmt :: p.2.1, p.2.2)
    else (db, [DbOp.execStmt stmt], some (TxError.stmtFailed version (i + 1)))

/-- Migration loop of `applyMysql` (verbatim copy in the source, with the
MySQL insert fragment). -/
def mysqlMigLoop (env : DbEnv) (tableName : String) (lastAppliedVersion : Int)
    (version : Nat) (migs : List String) (db : Db) : Db × List DbOp × Option TxError :=
  match migs with
  | [] => (db, [], none)
  | migration :: rest =>
    if (version : Int) ≤ lastAppliedVersion then
      mysqlMigLoop env tableName lastAppliedVersion (version + 1) rest db
    else
      let stmts := SplitStatements migration
      let p := mysqlExecStmts env version 0 stmts db
      match p.2.2 with
      | some e => (p.1, p.2.1, some e)
      | none =>
        let insertStmt := mysqlInsertStmt tableName
        if env.execOk insertStmt [(version : Int)] then
          let db2 := { p.1 with versions := some (p.1.versions.getD [] ++ [version]) }
          let q := mysqlMigLoop env tableName lastAppliedVersion (version + 1) rest db2
          (q.1, p.2.1 ++ DbOp.execInsert insertStmt version :: q.2.1, q.2.2)
        else
          (p.1, p.2.1 ++ [DbOp.execInsert insertStmt version],
            some (TxError.recordFailed version))

/-- `applyMysql`. -/
def applyMysql (env : DbEnv) (db : Db) (migrations : List String) (opts : Options) :
    ApplyResult :=
  let r := InTx env db (fun db0 =>
    let createStmt := mysqlCreateStmt opts.TableName
    if env.execOk createStmt [] = false then
      (db0, [DbOp.execCreate createStmt], some (TxError.createTableFailed opts.TableName))
    else
      let db1 := { db0 with versions := some (db0.versions.getD []) }
      let queryLast := mysqlQueryLast opts.TableName
      if env.queryOk queryLast = false then
        (db1, [DbOp.execCreate createStmt, DbOp.queryMaxVersion queryLast],
          some TxError.readVersionFailed)
      else
        let lastAppliedVersion := maxVersion (db1.versions.getD [])
        let p := mysqlMigLoop env opts.TableName lastAppliedVersion 1 migrations db1
        (p.1, DbOp.execCreate createStmt :: DbOp.queryMaxVersion queryLast :: p.2.1, p.2.2))
  match r.2.2 with
  | some e => { db := r.1, log := r.2.1, err := some (ApplyError.applyFailed DialectMysql e) }
  | none => { db := r.1, log := r.2.1, err := none }

/-- Statement loop of `applyPostgres` (verbatim copy in the source). -/
def postgresExecStmts (env : DbEnv) (version : Nat) (i : Nat) (stmts : List String) (db : Db) :
    Db × List DbOp × Option TxError :=
  match stmts with
  | [] => (db, [], none)
  | stmt :: rest =>
    if env.execOk stmt [] then
      let p := postgresExecStmts env version (i + 1) rest { db with applied := db.applied ++ [stmt] }
      (p.1, DbOp.execStmt stmt :: p.2.1, p.2.2)
    else (db, [DbOp.execStmt stmt], some (TxError.stmtFailed version (i + 1)))

/-- Migration loop of `applyPostgres` (verbatim copy in the source, with
the PostgreSQL insert fragment). -/
def postgresMigLoop (env : DbEnv) (tableName : String) (lastAppliedVersion : Int)
    (version : Nat) (migs : List String) (db : Db) : Db × List DbOp × Option TxError :=
  match migs with
  | [] => (db, [], none)
  | migration :: rest =>
    if (version : Int) ≤ lastAppliedVersion then
      postgresMigLoop env tableName lastAppliedVersion (version + 1) rest db
    else
      let stmts := SplitStatements migration
      let p := postgresExecStmts env version 0 stmts db
      match p.2.2 with
      | some e => (p.1, p.2.1, some e)
      | none =>
        let insertStmt := postgresInsertStmt tableName
        if env.execOk insertStmt [(version : Int)] then
          let db2 := { p.1 with versions := some (p.1.versions.getD [] ++ [version]) }
          let q := postgresMigLoop env tableName lastAppliedVersion (version + 1) rest db2
          (q.1, p.2.1 ++ DbOp.execInsert insertStmt version :: q.2.1, q.2.2)
        else
          (p.1, p.2.1 ++ [DbOp.execInsert insertStmt version],
            some (TxError.recordFailed version))

/-- `applyPostgres`. -/
def applyPostgres (env : DbEnv) (db : Db) (migrations : List String) (opts : Options) :
    ApplyResult :=
  let r := InTx env db (fun db0 =>
    let createStmt := postgresCreateStmt opts.TableName
    if env.execOk createStmt [] = false then
      (db0, [DbOp.execCreate createStmt], some (TxError.createTableFailed opts.TableName))
    else
      let db1 := { db0 with versions := some (db0.versions.getD []) }
      let queryLast := postgresQueryLast opts.TableName
      if env.queryOk queryLast = false then
        (db1, [DbOp.execCreate createStmt, DbOp.queryMaxVersion queryLast],
          some TxError.readVersionFailed)
      else
        let lastAppliedVersion := maxVersion (db1.versions.getD [])
        let p := postgresMigLoop env opts.TableName lastAppliedVersion 1 migrations db1
        (p.1, DbOp.execCreate createStmt :: DbOp.queryMaxVersion queryLast :: p.2.1, p.2.2))
  match r.2.2 with
  | some e => { db := r.1, log := r.2.1, err := some (ApplyError.applyFailed DialectPostgres e) }
  | none => { db := r.1, log := r.2.1, err := none }

/-- The option-application loop of `Apply`: each user option mutates the
options; a failure is reported with the 1-based option index. -/
def applyUserOptions : Nat → Options → List ApplyOption → Except ApplyError Options
  | _, opts, [] => Except.ok opts
  | i, opts, modifyOptions :: rest =>
    match modifyOptions opts with
    | Except.ok opts2 => applyUserOptions (i + 1) opts2 rest
    | Except.error msg => Except.error (ApplyError.optionFailed (i + 1) msg)

/-- `Apply`: build options from defaults and user options, validate them,
and dispatch to the dialect-specific apply routine. -/
def Apply (env : DbEnv) (db : Db) (migrations : List String)
    (userOptions : List ApplyOption) : ApplyResult :=
  match applyUserOptions 0 { Dialect := DialectSqlite, TableName := "migrations" } userOptions with
  | Except.error e => { db := db, log := [], err := some e }
  | Except.ok opts =>
    match validateOptions opts with
    | some ve => { db := db, log := [], err := some (ApplyError.invalidOptions ve) }
    | none =>
      if opts.Dialect = DialectSqlite then applySqlite env db migrations opts
      else if opts.Dialect = DialectMysql then applyMysql env db migrations opts
      else if opts.Dialect = DialectPostgres then applyPostgres env db migrations opts
      else { db := db, log := [], err := some (ApplyError.unsupportedDialect opts.Dialect) }

/-- Migration statement executions appearing in an operation log. -/
def stmtTrace (log : List DbOp) : List String :=
  log.filterMap fun op =>
    match op with
    | DbOp.execStmt s => some s
    | _ => none

/-- Bookkeeping version inserts appearing in an operation log. -/
def insertTrace (log : List DbOp) : List Nat :=
  log.filterMap fun op =>
    match op with
    | DbOp.execInsert _ v => some v
    | _ => none

/-- A statement-failure error shape: the failure of a migration statement,
possibly additionally wrapped by a rollback failure. -/
def isStmtFailure : ApplyError → Bool
  | ApplyError.applyFailed _ (TxError.stmtFailed _ _) => true
  | ApplyError.applyFailed _ (TxError.withRollbackFailure (TxError.stmtFailed _ _)) => true
  | _ => false

/-- The property every emitted statement satisfies: trimmed and
non-empty. -/
def GoodStmt (x : String) : Prop := goTrimSpace x.data = x.data ∧ x ≠ ""

/-- Doubling every occurrence of the quote character in a character
list. -/
def doubleChar (q : Char) : List Char → List Char
  | [] => []
  | c :: rest =>
    if c = q then q :: q :: doubleChar q rest
    else c :: doubleChar q rest

/-- Modelled from the spec (section 4.2 Identifier quoting): wrap the name
in the quote character and double any embedded instance of that
character.  Used to compare the generated fragments with what the claim
asserts. -/
def specQuoteIdent (q : Char) (s : String) : String :=
  String.mk (q :: (doubleChar q s.data ++ [q]))

/-- First character of the identifier charset `[A-Za-z_]`. -/
def identHeadChar (c : Char) : Bool :=
  ('a' ≤ c && c ≤ 'z') || ('A' ≤ c && c ≤ 'Z') || c == '_'

/-- Subsequent characters of the identifier charset `[A-Za-z0-9_]`. -/
def identTailChar (c : Char) : Bool :=
  identHeadChar c || ('0' ≤ c && c ≤ '9')

/-- The table-name pattern `[A-Za-z_][A-Za-z0-9_]*` of the spec. -/
def matchesIdent (s : String) : Bool :=
  match s.data with
  | [] => false
  | c :: rest => identHeadChar c && rest.all identTailChar

/-- Driver behaviour in which every operation succeeds. -/
def envOk : DbEnv :=
  { beginOk := true, execOk := fun _ _ => true, queryOk := fun _ => true,
    commitOk := true, rollbackOk := true }

/-- Database states reachable from a fresh database by any sequence of
`Apply` calls (successful or failed, any driver behaviour, any options). -/
inductive Reachable : Db → Prop where
  | init : Reachable Db.fresh
  | step (db : Db) (env : DbEnv) (migs : List String) (uopts : List ApplyOption) :
      Reachable db → Reachable (Apply env db migs uopts).db

/-- The transaction error underlying an `Apply` error, with the dialect
tag of the outer wrap erased. -/
def txErrOf : Option ApplyError → Option TxError
  | some (ApplyError.applyFailed _ e) => some e
  | _ => none

/-- Concrete driver behaviour for witnesses: every operation succeeds
except executing the statement text BOOM. -/
def envBoom : DbEnv :=
  { beginOk := true, execOk := fun s _ => !(s == "BOOM"), queryOk := fun _ => true,
    commitOk := true, rollbackOk := true }

/-! ## Equations between the per-dialect routines and the shared skeleton -/

lemma sqliteExecStmts_eq (env : DbEnv) (version : Nat) :
    ∀ stmts i db, sqliteExecStmts env version i stmts db = execMigStmts env version i stmts db := by
  intro stmts
  induction stmts with
  | nil => intro i db; rfl
  | cons stmt rest ih => intro i db; simp only [sqliteExecStmts, execMigStmts, ih]

lemma mysqlExecStmts_eq (env : DbEnv) (version : Nat) :
    ∀ stmts i db, mysqlExecStmts env version i stmts db = execMigStmts env version i stmts db := by
  intro stmts
  induction stmts with
  | nil => intro i db; rfl
  | cons stmt rest ih => intro i db; simp only [mysqlExecStmts, execMigStmts, ih]

lemma postgresExecStmts_eq (env : DbEnv) (version : Nat) :
    ∀ stmts i db, postgresExecStmts env version i stmts db = execMigStmts env version i stmts db := by
  intro stmts
  induction stmts with
  | nil => intro i db; rfl
  | cons stmt rest ih => intro i db; simp only [postgresExecStmts, execMigStmts, ih]

lemma sqliteMigLoop_eq (env : DbEnv) (t : String) (last : Int) :
    ∀ migs version db, sqliteMigLoop env t last version migs db =
      migLoop env (sqliteInsertStmt t) last version migs db := by
  intro migs
  induction migs with
  | nil => intro v db; rfl
  | cons m rest ih => intro v db; simp only [sqliteMigLoop, migLoop, sqliteExecStmts_eq, ih]

lemma mysqlMigLoop_eq (env : DbEnv) (t : String) (last : Int) :
    ∀ migs version db, mysqlMigLoop env t last version migs db =
      migLoop env (mysqlInsertStmt t) last version migs db := by
  intro migs
  induction migs with
  | nil => intro v db; rfl
  | cons m rest ih => intro v db; simp only [mysqlMigLoop, migLoop, mysqlExecStmts_eq, ih]

lemma postgresMigLoop_eq (env : DbEnv) (t : String) (last : Int) :
    ∀ migs version db, postgresMigLoop env t last version migs db =
      migLoop env (postgresInsertStmt t) last version migs db := by
  intro migs
  induction migs with
  | nil => intro v db; rfl
  | cons m rest ih => intro v db; simp only [postgresMigLoop, migLoop, postgresExecStmts_eq, ih]

lemma applySqlite_eq (env : DbEnv) (db : Db) (migrations : List String) (opts : Options) :
    applySqlite env db migrations opts =
      applyGeneric (sqliteCreateStmt opts.TableName) (sqliteQueryLast opts.TableName)
        (sqliteInsertStmt opts.TableName) DialectSqlite opts.TableName env db migrations := by
  simp only [applySqlite, applyGeneric, applyBody, wrapResult, sqliteMigLoop_eq]
  rfl

lemma applyMysql_eq (env : DbEnv) (db : Db) (migrations : List String) (opts : Options) :
    applyMysql env db migrations opts =
      applyGeneric (mysqlCreateStmt opts.TableName) (mysqlQueryLast opts.TableName)
        (mysqlInsertStmt opts.TableName) DialectMysql opts.TableName env db migrations := by
  simp only [applyMysql, applyGeneric, applyBody, wrapResult, mysqlMigLoop_eq]
  rfl

lemma applyPostgres_eq (env : DbEnv) (db : Db) (migrations : List String) (opts : Options) :
    applyPostgres env db migrations opts =
      applyGeneric (postgresCreateStmt opts.TableName) (postgresQueryLast opts.TableName)
        (postgresInsertStmt opts.TableName) DialectPostgres opts.TableName env db migrations := by
  simp only [applyPostgres, applyGeneric, applyBody, wrapResult, postgresMigLoop_eq]
  rfl

/-! ## Transactional atomicity -/

/-- `InTx` either leaves the durable state untouched, or succeeds and
commits the state produced by the body. -/
lemma InTx_db (env : DbEnv) (db : Db) (fn : Db → Db × List DbOp × Option TxError) :
    (InTx env db fn).1 = db ∨
      ((InTx env db fn).2.2 = none ∧ (InTx env db fn).1 = (fn db).1) := by
  unfold InTx
  by_cases hb : env.beginOk = false
  · simp [hb]
  · simp only [hb, if_false]
    cases h : (fn db).2.2 with
    | none =>
      by_cases hc : env.commitOk
      · simp [h, hc]
      · simp [h, hc]
    | some e =>
      by_cases hr : env.rollbackOk
      · simp [h, hr]
      · simp [h, hr]

lemma wrapResult_db (d : Dialect) (r : Db × List DbOp × Option TxError) :
    (wrapResult d r).db = r.1 := by
  cases h : r.2.2 <;> simp [wrapResult, h]

lemma wrapResult_log (d : Dialect) (r : Db × List DbOp × Option TxError) :
    (wrapResult d r).log = r.2.1 := by
  cases h : r.2.2 <;> simp [wrapResult, h]

lemma wrapResult_err_none (d : Dialect) (r : Db × List DbOp × Option TxError) :
    (wrapResult d r).err = none ↔ r.2.2 = none := by
  cases h : r.2.2 <;> simp [wrapResult, h]

/-- `applyGeneric` either leaves the durable state untouched or succeeds. -/
lemma applyGeneric_db (c q ins : String) (d : Dialect) (t : String) (env : DbEnv) (db : Db)
    (migs : List String) :
    (applyGeneric c q ins d t env db migs).db = db ∨
      (applyGeneric c q ins d t env db migs).err = none := by
  unfold applyGeneric
  rcases InTx_db env db (applyBody c q ins t env migs) with h | ⟨hnone, _⟩
  · left; rw [wrapResult_db]; exact h
  · right; rw [wrapResult_err_none]; exact hnone

/-- Any `Apply` call either leaves the database exactly as it was, or
returns no error. -/
lemma Apply_db_or_ok (env : DbEnv) (db : Db) (migs : List String)
    (uopts : List ApplyOption) :
    (Apply env db migs uopts).db = db ∨ (Apply env db migs uopts).err = none := by
  unfold Apply
  cases hopt : applyUserOptions 0 { Dialect := DialectSqlite, TableName := "migrations" } uopts with
  | error e => simp [hopt]
  | ok opts =>
    simp only [hopt]
    cases hval : validateOptions opts with
    | some ve => simp [hval]
    | none =>
      simp only [hval]
      by_cases h1 : opts.Dialect = DialectSqlite
      · rw [if_pos h1, applySqlite_eq]
        exact applyGeneric_db _ _ _ _ _ _ _ _
      · by_cases h2 : opts.Dialect = DialectMysql
        · rw [if_neg h1, if_pos h2, applyMysql_eq]
          exact applyGeneric_db _ _ _ _ _ _ _ _
        · by_cases h3 : opts.Dialect = DialectPostgres
          · rw [if_neg h1, if_neg h2, if_pos h3, applyPostgres_eq]
            exact applyGeneric_db _ _ _ _ _ _ _ _
          · rw [if_neg h1, if_neg h2, if_neg h3]
            left; rfl

/-- C1: if any statement of any pending migration fails during an `Apply`
call, the whole call aborts and the durable database state is exactly as it
was before the call: the bookkeeping table and the applied-statement
effects are unchanged, so no row for the failing version (or any version
above the prior maximum) and no effect of an earlier migration of the same
call persists. -/
theorem apply_statement_failure_is_atomic (env : DbEnv) (db : Db) (migs : List String)
    (uopts : List ApplyOption) (e : ApplyError)
    (herr : (Apply env db migs uopts).err = some e) (_hstmt : isStmtFailure e = true) :
    (Apply env db migs uopts).db = db := by
  rcases Apply_db_or_ok env db migs uopts with h | h
  · exact h
  · rw [herr] at h; exact absurd h (by simp)

/-! ## Splitter lemmas -/

lemma stepLineComment_out (st : SplitState) (c : Char) (rest : List Char) :
    (stepLineComment st c rest).1.out = st.out := by
  unfold stepLineComment; split <;> rfl

lemma stepBlockComment_out (st : SplitState) (c : Char) (rest : List Char) :
    (stepBlockComment st c rest).1.out = st.out := by
  unfold stepBlockComment; (repeat' split) <;> rfl

lemma stepDollarQuoted_out (st : SplitState) (c : Char) (rest : List Char) :
    (stepDollarQuoted st c rest).1.out = st.out := by
  unfold stepDollarQuoted; split <;> rfl

lemma stepInSingle_out (st : SplitState) (c : Char) (rest : List Char) :
    (stepInSingle st c rest).1.out = st.out := by
  unfold stepInSingle; (repeat' split) <;> rfl

lemma stepInDouble_out (st : SplitState) (c : Char) (rest : List Char) :
    (stepInDouble st c rest).1.out = st.out := by
  unfold stepInDouble; (repeat' split) <;> rfl

lemma stepInBacktick_out (st : SplitState) (c : Char) (rest : List Char) :
    (stepInBacktick st c rest).1.out = st.out := by
  unfold stepInBacktick; (repeat' split) <;> rfl

lemma splitStep_eq_lineComment (st : SplitState) (c : Char) (rest : List Char)
    (h1 : st.inLineComment = true) :
    splitStep st (c :: rest) = stepLineComment st c rest := by
  simp [splitStep, h1]

lemma splitStep_eq_blockComment (st : SplitState) (c : Char) (rest : List Char)
    (h1 : st.inLineComment = false) (h2 : 0 < st.inBlockComment) :
    splitStep st (c :: rest) = stepBlockComment st c rest := by
  simp [splitStep, h1, h2]

lemma splitStep_eq_dollarQuoted (st : SplitState) (c : Char) (rest : List Char)
    (h1 : st.inLineComment = false) (h2 : st.inBlockComment = 0)
    (h3 : st.dollarTag ≠ []) :
    splitStep st (c :: rest) = stepDollarQuoted st c rest := by
  simp [splitStep, h1, h2, h3]

lemma splitStep_eq_inSingle (st : SplitState) (c : Char) (rest : List Char)
    (h1 : st.inLineComment = false) (h2 : st.inBlockComment = 0)
    (h3 : st.dollarTag = []) (h4 : st.inS = true) :
    splitStep st (c :: rest) = stepInSingle st c rest := by
  simp [splitStep, h1, h2, h3, h4]

lemma splitStep_eq_inDouble (st : SplitState) (c : Char) (rest : List Char)
    (h1 : st.inLineComment = false) (h2 : st.inBlockComment = 0)
    (h3 : st.dollarTag = []) (h4 : st.inS = false) (h5 : st.inD = true) :
    splitStep st (c :: rest) = stepInDouble st c rest := by
  simp [splitStep, h1, h2, h3, h4, h5]

lemma splitStep_eq_inBacktick (st : SplitState) (c : Char) (rest : List Char)
    (h1 : st.inLineComment = false) (h2 : st.inBlockComment = 0)
    (h3 : st.dollarTag = []) (h4 : st.inS = false) (h5 : st.inD = false)
    (h6 : st.inB = true) :
    splitStep st (c :: rest) = stepInBacktick st c rest := by
  simp [splitStep, h1, h2, h3, h4, h5, h6]

lemma splitStep_eq_default (st : SplitState) (c : Char) (rest : List Char)
    (h1 : st.inLineComment = false) (h2 : st.inBlockComment = 0)
    (h3 : st.dollarTag = []) (h4 : st.inS = false) (h5 : st.inD = false)
    (h6 : st.inB = false) :
    splitStep st (c :: rest) = stepDefault st c rest := by
  simp [splitStep, h1, h2, h3, h4, h5, h6]

/-- The output list is only ever modified by `flush`, which runs only in
default mode at a top-level semicolon: a step taken in any non-default
lexical mode (inside a quoted string, a quoted identifier, a line comment,
a block comment, or a dollar-quoted block) leaves `out` unchanged. -/
lemma splitStep_out_nondefault (st : SplitState) (l : List Char)
    (h : st.inS = true ∨ st.inD = true ∨ st.inB = true ∨ st.inLineComment = true ∨
      0 < st.inBlockComment ∨ st.dollarTag ≠ []) :
    (splitStep st l).1.out = st.out := by
  cases l with
  | nil => rfl
  | cons c rest =>
    by_cases h1 : st.inLineComment = true
    · rw [splitStep_eq_lineComment st c rest h1, stepLineComment_out]
    · have h1f : st.inLineComment = false := by simpa using h1
      by_cases h2 : 0 < st.inBlockComment
      · rw [splitStep_eq_blockComment st c rest h1f h2, stepBlockComment_out]
      · have h2z : st.inBlockComment = 0 := by omega
        by_cases h3 : st.dollarTag = []
        · by_cases h4 : st.inS = true
          · rw [splitStep_eq_inSingle st c rest h1f h2z h3 h4, stepInSingle_out]
          · have h4f : st.inS = false := by simpa using h4
            by_cases h5 : st.inD = true
            · rw [splitStep_eq_inDouble st c rest h1f h2z h3 h4f h5, stepInDouble_out]
            · have h5f : st.inD = false := by simpa using h5
              by_cases h6 : st.inB = true
              · rw [splitStep_eq_inBacktick st c rest h1f h2z h3 h4f h5f h6,
                  stepInBacktick_out]
              · have h6f : st.inB = false := by simpa using h6
                rcases h with h | h | h | h | h | h <;> simp_all
        · rw [splitStep_eq_dollarQuoted st c rest h1f h2z h3, stepDollarQuoted_out]

/-- C4: a semicolon inside a quoted literal, a line comment, a (possibly
nested) block comment, or a dollar-quoted block never ends a statement:
whenever the scanner is in any non-default mode, a step (in particular one
at a semicolon) emits nothing, and the two example scripts of the spec
split as stated. -/
theorem split_protected_semicolon_never_splits :
    (∀ (st : SplitState) (l : List Char),
      st.inS = true ∨ st.inD = true ∨ st.inB = true ∨ st.inLineComment = true ∨
        0 < st.inBlockComment ∨ st.dollarTag ≠ [] →
      (splitStep st l).1.out = st.out) ∧
    SplitStatements "INSERT INTO t (s) VALUES ('a;b'); SELECT 2;" =
      ["INSERT INTO t (s) VALUES ('a;b')", "SELECT 2"] ∧
    SplitStatements "SELECT 1; /* block; comment */ SELECT 2;" = ["SELECT 1", "SELECT 2"] :=
  ⟨splitStep_out_nondefault, by decide, by decide⟩

/-- Witness for C4: a step at a semicolon inside a single-quoted string
emits nothing. -/
theorem split_protected_semicolon_never_splits_witness :
    (splitStep (SplitState.mk [] ['a'] true false false false 0 []) [';']).1.out = [] :=
  split_protected_semicolon_never_splits.1
    (SplitState.mk [] ['a'] true false false false 0 []) [';'] (Or.inl rfl)

lemma dropWhile_head_not (p : Char → Bool) :
    ∀ (l : List Char) (c : Char) (r : List Char), l.dropWhile p = c :: r → p c = false := by
  intro l
  induction l with
  | nil => intro c r h; simp [List.dropWhile] at h
  | cons a t ih =>
    intro c r h
    by_cases hp : p a
    · rw [List.dropWhile_cons_of_pos hp] at h; exact ih c r h
    · rw [List.dropWhile_cons_of_neg hp] at h
      cases h
      simpa using hp

lemma dropWhile_idem (p : Char → Bool) (l : List Char) :
    (l.dropWhile p).dropWhile p = l.dropWhile p := by
  induction l with
  | nil => rfl
  | cons a t ih =>
    by_cases hp : p a
    · rw [List.dropWhile_cons_of_pos hp]; exact ih
    · rw [List.dropWhile_cons_of_neg hp, List.dropWhile_cons_of_neg hp]

lemma dropWhile_eq_self_of_head (p : Char → Bool) (l : List Char)
    (h : ∀ c r, l = c :: r → p c = false) : l.dropWhile p = l := by
  cases l with
  | nil => rfl
  | cons a t => exact List.dropWhile_cons_of_neg (by simp [h a t rfl])

/-- `strings.TrimSpace` is idempotent: a trimmed statement is unchanged by
trimming again. -/
lemma goTrimSpace_idem (l : List Char) : goTrimSpace (goTrimSpace l) = goTrimSpace l := by
  have key : ∀ m : List Char,
      (((m.dropWhile goIsSpace).reverse.dropWhile goIsSpace).reverse).dropWhile goIsSpace =
        ((m.dropWhile goIsSpace).reverse.dropWhile goIsSpace).reverse := by
    intro m
    apply dropWhile_eq_self_of_head
    intro c r hcr
    have hsplit : (m.dropWhile goIsSpace).reverse.takeWhile goIsSpace ++
        (m.dropWhile goIsSpace).reverse.dropWhile goIsSpace = (m.dropWhile goIsSpace).reverse :=
      List.takeWhile_append_dropWhile _ _
    have hrev := congrArg List.reverse hsplit
    rw [List.reverse_append, List.reverse_reverse] at hrev
    rw [hcr] at hrev
    exact dropWhile_head_not goIsSpace m c
      (r ++ ((m.dropWhile goIsSpace).reverse.takeWhile goIsSpace).reverse)
      (by rw [← List.cons_append]; exact hrev.symm)
  unfold goTrimSpace
  rw [key l, List.reverse_reverse, dropWhile_idem]

lemma flushBuf_out_good (st : SplitState) (h : ∀ x ∈ st.out, GoodStmt x) :
    ∀ x ∈ (flushBuf st).out, GoodStmt x := by
  unfold flushBuf
  split
  · exact h
  · intro x hx
    rcases List.mem_append.mp hx with hx | hx
    · exact h x hx
    · rcases List.mem_singleton.mp hx with rfl
      constructor
      · show goTrimSpace (String.mk (goTrimSpace st.buf)).data = _
        simpa using goTrimSpace_idem st.buf
      · intro hempty
        have hdata := congrArg String.data hempty
        simp at hdata
        simp_all

lemma flushBuf_out_extend (st : SplitState) :
    ∃ t, (flushBuf st).out = st.out ++ t := by
  unfold flushBuf
  split
  · exact ⟨[], by simp⟩
  · exact ⟨[String.mk (goTrimSpace st.buf)], rfl⟩

/-- One scanner step either leaves the output unchanged or flushes the
trimmed, non-empty buffer as one more statement at the end. -/
lemma splitStep_out_spec (st : SplitState) (l : List Char) :
    (splitStep st l).1.out = st.out ∨
      ((splitStep st l).1.out = st.out ++ [String.mk (goTrimSpace st.buf)] ∧
        goTrimSpace st.buf ≠ []) := by
  cases l with
  | nil => left; rfl
  | cons c rest =>
    by_cases h1 : st.inLineComment = true
    · left; rw [splitStep_eq_lineComment st c rest h1, stepLineComment_out]
    · have h1f : st.inLineComment = false := by simpa using h1
      by_cases h2 : 0 < st.inBlockComment
      · left; rw [splitStep_eq_blockComment st c rest h1f h2, stepBlockComment_out]
      · have h2z : st.inBlockComment = 0 := by omega
        by_cases h3 : st.dollarTag = []
        · by_cases h4 : st.inS = true
          · left; rw [splitStep_eq_inSingle st c rest h1f h2z h3 h4, stepInSingle_out]
          · have h4f : st.inS = false := by simpa using h4
            by_cases h5 : st.inD = true
            · left; rw [splitStep_eq_inDouble st c rest h1f h2z h3 h4f h5, stepInDouble_out]
            · have h5f : st.inD = false := by simpa using h5
              by_cases h6 : st.inB = true
              · left
                rw [splitStep_eq_inBacktick st c rest h1f h2z h3 h4f h5f h6, stepInBacktick_out]
              · have h6f : st.inB = false := by simpa using h6
                rw [splitStep_eq_default st c rest h1f h2z h3 h4f h5f h6f]
                unfold stepDefault
                (repeat' split) <;> try (left; rfl)
                unfold flushBuf
                split
                · left; rfl
                · right; exact ⟨rfl, by assumption⟩
        · left; rw [splitStep_eq_dollarQuoted st c rest h1f h2z h3, stepDollarQuoted_out]

lemma splitRun_out_good :
    ∀ (fuel : Nat) (st : SplitState) (l : List Char),
      (∀ x ∈ st.out, GoodStmt x) → ∀ x ∈ (splitRun fuel st l).out, GoodStmt x := by
  intro fuel
  induction fuel with
  | zero => intro st l h; exact h
  | succ n ih =>
    intro st l h
    cases l with
    | nil => exact h
    | cons c rest =>
      show ∀ x ∈ (splitRun n (splitStep st (c :: rest)).1 (splitStep st (c :: rest)).2).out, _
      apply ih
      rcases splitStep_out_spec st (c :: rest) with h1 | ⟨h1, hne⟩
      · rw [h1]; exact h
      · rw [h1]
        intro x hx
        rcases List.mem_append.mp hx with hx | hx
        · exact h x hx
        · rcases List.mem_singleton.mp hx with rfl
          constructor
          · show goTrimSpace (String.mk (goTrimSpace st.buf)).data = _
            simpa using goTrimSpace_idem st.buf
          · intro hempty
            have hdata := congrArg String.data hempty
            simp at hdata
            simp_all

lemma splitRun_out_extend :
    ∀ (fuel : Nat) (st : SplitState) (l : List Char),
      ∃ t, (splitRun fuel st l).out = st.out ++ t := by
  intro fuel
  induction fuel with
  | zero => intro st l; exact ⟨[], by simp [splitRun]⟩
  | succ n ih =>
    intro st l
    cases l with
    | nil => exact ⟨[], by simp [splitRun]⟩
    | cons c rest =>
      obtain ⟨t', ht'⟩ := ih (splitStep st (c :: rest)).1 (splitStep st (c :: rest)).2
      show ∃ t, (splitRun n (splitStep st (c :: rest)).1 (splitStep st (c :: rest)).2).out = _
      rcases splitStep_out_spec st (c :: rest) with h1 | ⟨h1, _⟩
      · exact ⟨t', by rw [ht', h1]⟩
      · exact ⟨[String.mk (goTrimSpace st.buf)] ++ t', by rw [ht', h1]; simp⟩

/-- C5: the splitter is a total function (`SplitStatements` is a Lean
function); every element of the result is trimmed and non-empty (empty or
whitespace-only segments are dropped); the scan only ever appends emitted
statements at the end of the output, so elements appear in scan order; and
the example script of the spec splits as stated. -/
theorem split_total_trimmed_in_order :
    (∀ (s : String), ∀ x ∈ SplitStatements s, goTrimSpace x.data = x.data ∧ x ≠ "") ∧
    (∀ (fuel : Nat) (st : SplitState) (l : List Char),
      ∃ t, (splitRun fuel st l).out = st.out ++ t) ∧
    SplitStatements " ;\n; SELECT 1;; ; SELECT 2; ;" = ["SELECT 1", "SELECT 2"] := by
  refine ⟨?_, splitRun_out_extend, by decide⟩
  intro s x hx
  have h1 : ∀ y ∈ (splitRun s.data.length SplitState.init s.data).out, GoodStmt y :=
    splitRun_out_good _ _ _ (by intro y hy; simp [SplitState.init] at hy)
  exact flushBuf_out_good _ h1 x hx

/-- Witness for C5: the first element of the example split is trimmed and
non-empty. -/
theorem split_total_trimmed_in_order_witness :
    goTrimSpace ("SELECT 1" : String).data = ("SELECT 1" : String).data ∧
      ("SELECT 1" : String) ≠ "" :=
  split_total_trimmed_in_order.1 " ;\n; SELECT 1;; ; SELECT 2; ;" "SELECT 1" (by decide)

lemma dropWhile_append_all (p : Char → Bool) :
    ∀ (u l : List Char), (∀ c ∈ u, p c = true) → (u ++ l).dropWhile p = l.dropWhile p := by
  intro u
  induction u with
  | nil => intro l _; rfl
  | cons a t ih =>
    intro l h
    rw [List.cons_append, List.dropWhile_cons_of_pos (by simpa using h a (by simp))]
    exact ih l fun c hc => h c (by simp [hc])

lemma takeWhile_append_all (p : Char → Bool) :
    ∀ (u : List Char) (x : Char) (l : List Char), (∀ c ∈ u, p c = true) → p x = false →
      (u ++ x :: l).takeWhile p = u := by
  intro u
  induction u with
  | nil =>
    intro x l _ hx
    exact List.takeWhile_cons_of_neg (by simp [hx])
  | cons a t ih =>
    intro x l h hx
    rw [List.cons_append, List.takeWhile_cons_of_pos (by simpa using h a (by simp))]
    rw [ih x l (fun c hc => h c (by simp [hc])) hx]

/-- C6: in default mode, a dollar sign followed by zero or more tag
characters and another dollar sign opens a dollar-quoted block tagged by
that exact substring, with the tag copied verbatim into the buffer; inside
the block every character (semicolons included) is copied verbatim until
the exact opening tag reappears, which closes the block and is itself
copied; and the example script of the spec splits as stated. -/
theorem split_dollar_quoted_blocks :
    (∀ (st : SplitState) (run tail : List Char),
      st.inLineComment = false → st.inBlockComment = 0 → st.dollarTag = [] →
      st.inS = false → st.inD = false → st.inB = false →
      (∀ c ∈ run, isTagChar c = true) →
      splitStep st ('$' :: (run ++ '$' :: tail)) =
        ({ st with
            dollarTag := '$' :: (run ++ ['$'])
            buf := st.buf ++ ('$' :: (run ++ ['$'])) }, tail)) ∧
    (∀ (st : SplitState) (c : Char) (rest : List Char),
      ¬ st.dollarTag.isPrefixOf (c :: rest) →
      stepDollarQuoted st c rest = ({ st with buf := st.buf ++ [c] }, rest)) ∧
    (∀ (st : SplitState) (c : Char) (rest : List Char),
      st.dollarTag.isPrefixOf (c :: rest) →
      stepDollarQuoted st c rest =
        ({ st with buf := st.buf ++ st.dollarTag, dollarTag := [] },
          (c :: rest).drop st.dollarTag.length)) ∧
    SplitStatements "DO $$ BEGIN RAISE NOTICE 'x;'; END $$; SELECT 1;" =
      ["DO $$ BEGIN RAISE NOTICE 'x;'; END $$", "SELECT 1"] := by
  refine ⟨?_, ?_, ?_, by decide⟩
  · intro st run tail h1 h2 h3 h4 h5 h6 hrun
    rw [splitStep_eq_default st _ _ h1 h2 h3 h4 h5 h6]
    unfold stepDefault
    have hd : (run ++ '$' :: tail).dropWhile isTagChar = '$' :: tail := by
      rw [dropWhile_append_all isTagChar run _ hrun, List.dropWhile_cons_of_neg (by decide)]
    have ht : (run ++ '$' :: tail).takeWhile isTagChar = run :=
      takeWhile_append_all isTagChar run '$' tail hrun (by decide)
    rw [if_neg (by simp [List.isPrefixOf]), if_neg (by simp [List.isPrefixOf]), if_pos rfl]
    rw [hd, ht]
    simp
  · intro st c rest h
    unfold stepDollarQuoted
    rw [if_neg h]
  · intro st c rest h
    unfold stepDollarQuoted
    rw [if_pos h]

/-- Witness for C6: the block `$t$` opens on concrete input. -/
theorem split_dollar_quoted_blocks_witness :
    splitStep SplitState.init ('$' :: (['t'] ++ '$' :: [';'])) =
      ({ SplitState.init with
          dollarTag := '$' :: (['t'] ++ ['$'])
          buf := SplitState.init.buf ++ ('$' :: (['t'] ++ ['$'])) }, [';']) :=
  split_dollar_quoted_blocks.1 SplitState.init ['t'] [';'] rfl rfl rfl rfl rfl rfl (by decide)

/-- Counterexample to C7: inside a double-quoted string the code has no
backslash rule, so in `SELECT "a\";b"; SELECT 2;` the sequence backslash,
double quote closes the string, the following semicolon splits, and the
result is not the one the claim predicts (the claim predicts the first
statement to be `SELECT "a\";b"`). -/
theorem split_backslash_double_quote_counterexample :
    SplitStatements "SELECT \"a\\\";b\"; SELECT 2;" = ["SELECT \"a\\\"", "b\"; SELECT 2;"] ∧
    SplitStatements "SELECT \"a\\\";b\"; SELECT 2;" ≠ ["SELECT \"a\\\";b\"", "SELECT 2"] :=
  ⟨by decide, by decide⟩

/-- C7 as amended: inside a single-quoted string a doubled quote is an
escaped literal quote and a backslash consumes the next character as an
escaped pair, neither closing the string, while an unescaped quote closes
the mode; inside a double-quoted string only the doubling rule applies —
a backslash is an ordinary character (it does not escape the closing
quote) and an unescaped double quote closes the mode; and in the
single-quoted example a backslash-escaped quote does not end the string,
so the semicolon after it does not split. -/
theorem split_quote_escape_rules :
    (∀ (st : SplitState) (d : Char) (rest : List Char),
      stepInSingle st '\\' (d :: rest) = ({ st with buf := st.buf ++ ['\\', d] }, rest)) ∧
    (∀ (st : SplitState) (rest : List Char),
      stepInSingle st '\'' ('\'' :: rest) =
        ({ st with buf := st.buf ++ ['\'', '\''] }, rest)) ∧
    (∀ (st : SplitState) (rest : List Char), rest.head? ≠ some '\'' →
      stepInSingle st '\'' rest = ({ st with inS := false, buf := st.buf ++ ['\''] }, rest)) ∧
    (∀ (st : SplitState) (rest : List Char),
      stepInDouble st '"' ('"' :: rest) = ({ st with buf := st.buf ++ ['"', '"'] }, rest)) ∧
    (∀ (st : SplitState) (rest : List Char), rest.head? ≠ some '"' →
      stepInDouble st '"' rest = ({ st with inD := false, buf := st.buf ++ ['"'] }, rest)) ∧
    (∀ (st : SplitState) (rest : List Char),
      stepInDouble st '\\' rest = ({ st with buf := st.buf ++ ['\\'] }, rest)) ∧
    SplitStatements "SELECT 'a\\';b'; SELECT 2;" = ["SELECT 'a\\';b'", "SELECT 2"] := by
  refine ⟨?_, ?_, ?_, ?_, ?_, ?_, by decide⟩
  · intro st d rest
    unfold stepInSingle
    rw [if_pos rfl]
  · intro st rest
    unfold stepInSingle
    rw [if_neg (by decide), if_pos rfl]
    simp
  · intro st rest h
    unfold stepInSingle
    rw [if_neg (by decide), if_pos rfl, if_neg h]
  · intro st rest
    unfold stepInDouble
    rw [if_pos rfl]
    simp
  · intro st rest h
    unfold stepInDouble
    rw [if_pos rfl, if_neg h]
  · intro st rest
    unfold stepInDouble
    rw [if_neg (by decide)]

/-- Witness for C7 as amended: closing a single-quoted string on concrete
input where the next character is not a quote. -/
theorem split_quote_escape_rules_witness :
    stepInSingle (SplitState.mk [] [] true false false false 0 []) '\'' [';'] =
      ({ SplitState.mk [] [] true false false false 0 [] with
          inS := false
          buf := [] ++ ['\''] }, [';']) :=
  split_quote_escape_rules.2.2.1 (SplitState.mk [] [] true false false false 0 []) [';']
    (by decide)

/-! ## Identifier quoting (C8) -/

lemma replaceBacktick_eq_doubleChar : ∀ l : List Char, replaceBacktick l = doubleChar '`' l := by
  intro l
  induction l with
  | nil => rfl
  | cons c rest ih => unfold replaceBacktick doubleChar; rw [ih]

/-- Counterexample to C8: the max-version query fragments interpolate the
table name verbatim, without doubling embedded quote characters, for both
the SQLite/PostgreSQL double-quote convention and the MySQL backtick
convention. -/
theorem fragment_quoting_counterexample :
    sqliteQueryLast "a\"b" ≠
        "SELECT COALESCE(MAX(version), -1) FROM " ++ specQuoteIdent '"' "a\"b" ∧
      mysqlQueryLast "a`b" ≠
        "SELECT COALESCE(MAX(version), -1) FROM " ++ specQuoteIdent '`' "a`b" :=
  ⟨by decide, by decide⟩

/-- C8 as amended: only the MySQL CREATE TABLE fragment quotes the table
name through `QuoteIdentBacktick`, which wraps it in backticks and doubles
every embedded backtick (it agrees with the spec-modelled doubling
quoter); every other fragment wraps the name in the dialect quote
character with the name interpolated verbatim, without doubling. -/
theorem fragment_quoting_shapes :
    (∀ s : String, QuoteIdentBacktick s = specQuoteIdent '`' s) ∧
    (∀ t : String, mysqlCreateStmt t = "CREATE TABLE IF NOT EXISTS " ++ QuoteIdentBacktick t ++
      "(\n\t\t\t    version INT NOT NULL PRIMARY KEY,\n\t\t\t    applied_at TIMESTAMP NOT NULL DEFAULT CURRENT_TIMESTAMP\n\t\t\t)") ∧
    (∀ t : String, sqliteQueryLast t =
      "SELECT COALESCE(MAX(version), -1) FROM \"" ++ t ++ "\"") ∧
    (∀ t : String, postgresQueryLast t =
      "SELECT COALESCE(MAX(version), -1) FROM \"" ++ t ++ "\"") ∧
    (∀ t : String, mysqlQueryLast t =
      "SELECT COALESCE(MAX(version), -1) FROM `" ++ t ++ "`") ∧
    (∀ t : String, sqliteInsertStmt t = "INSERT INTO \"" ++ t ++ "\" (version) VALUES (?)") ∧
    (∀ t : String, mysqlInsertStmt t = "INSERT INTO `" ++ t ++ "` (version) VALUES (?)") ∧
    (∀ t : String, postgresInsertStmt t = "INSERT INTO \"" ++ t ++ "\" (version) VALUES ($1)") ∧
    (∀ t : String, sqliteCreateStmt t = "CREATE TABLE IF NOT EXISTS \"" ++ t ++
      "\" (\n                version INTEGER PRIMARY KEY,\n                applied_at TIMESTAMP NOT NULL DEFAULT CURRENT_TIMESTAMP\n            )") ∧
    (∀ t : String, postgresCreateStmt t = "CREATE TABLE IF NOT EXISTS \"" ++ t ++
      "\" (\n                version INTEGER PRIMARY KEY,\n                applied_at TIMESTAMP NOT NULL DEFAULT CURRENT_TIMESTAMP\n            )") := by
  refine ⟨?_, fun t => rfl, fun t => rfl, fun t => rfl, fun t => rfl, fun t => rfl,
    fun t => rfl, fun t => rfl, fun t => rfl, fun t => rfl⟩
  intro s
  unfold QuoteIdentBacktick specQuoteIdent
  rw [replaceBacktick_eq_doubleChar]
  apply congrArg String.mk ∘ congrArg String.data
  show String.mk ('`' :: (doubleChar '`' s.data ++ ['`'])) = _
  rfl

/-- Witness for C8 as amended: the backtick quoter on a concrete name with
an embedded backtick. -/
theorem fragment_quoting_shapes_witness :
    QuoteIdentBacktick "a`b" = specQuoteIdent '`' "a`b" :=
  fragment_quoting_shapes.1 "a`b"

/-! ## Option validation (C9) -/

lemma validTableRunes_cond_iff (c : Char) (i : Nat) (hi : 0 < i) :
    (c = '_' ∨ ('a' ≤ c ∧ c ≤ 'z') ∨ ('A' ≤ c ∧ c ≤ 'Z') ∨ ('0' ≤ c ∧ c ≤ '9' ∧ 0 < i)) ↔
      identTailChar c = true := by
  unfold identTailChar identHeadChar
  simp only [Bool.or_eq_true, Bool.and_eq_true, decide_eq_true_eq, beq_iff_eq, hi, and_true]
  tauto

lemma validTableRunes_head_cond_iff (c : Char) :
    (c = '_' ∨ ('a' ≤ c ∧ c ≤ 'z') ∨ ('A' ≤ c ∧ c ≤ 'Z') ∨ ('0' ≤ c ∧ c ≤ '9' ∧ 0 < 0)) ↔
      identHeadChar c = true := by
  unfold identHeadChar
  simp only [Bool.or_eq_true, Bool.and_eq_true, decide_eq_true_eq, beq_iff_eq]
  constructor
  · rintro (h | h | h | h)
    · tauto
    · tauto
    · tauto
    · omega
  · tauto

lemma validTableRunes_pos :
    ∀ (l : List Char) (i : Nat), 0 < i → validTableRunes i l = l.all identTailChar := by
  intro l
  induction l with
  | nil => intro i _; rfl
  | cons c rest ih =>
    intro i hi
    unfold validTableRunes
    rw [List.all_cons]
    by_cases hc : identTailChar c = true
    · rw [if_pos ((validTableRunes_cond_iff c i hi).mpr hc), ih (i + 1) (by omega), hc,
        Bool.true_and]
    · rw [if_neg fun hcond => hc ((validTableRunes_cond_iff c i hi).mp hcond)]
      have : identTailChar c = false := by simpa using hc
      rw [this, Bool.false_and]

/-- `validateOptions` accepts exactly the valid dialects together with the
table names matching `[A-Za-z_][A-Za-z0-9_]*`. -/
lemma validateOptions_none_iff (opts : Options) :
    validateOptions opts = none ↔
      (IsValidDialect opts.Dialect = true ∧ matchesIdent opts.TableName = true) := by
  unfold validateOptions
  by_cases hd : IsValidDialect opts.Dialect = true
  · rw [if_neg (by simp [hd])]
    by_cases he : opts.TableName = ""
    · rw [if_pos he]
      have : matchesIdent opts.TableName = false := by
        rw [he]; rfl
      simp [this, hd]
    · rw [if_neg he]
      have hdata : opts.TableName.data ≠ [] := by
        intro hnil
        apply he
        have hmk : opts.TableName = String.mk opts.TableName.data := rfl
        rw [hmk, hnil]
      cases hT : opts.TableName.data with
      | nil => exact absurd hT hdata
      | cons c rest =>
        have hmi : matchesIdent opts.TableName = (identHeadChar c && rest.all identTailChar) := by
          unfold matchesIdent
          rw [hT]
        unfold validTableRunes
        by_cases hc : identHeadChar c = true
        · rw [if_pos ((validTableRunes_head_cond_iff c).mpr hc),
            validTableRunes_pos rest 1 (by omega)]
          by_cases hall : rest.all identTailChar = true
          · simp [hall, hmi, hc, hd]
          · have : rest.all identTailChar = false := by simpa using hall
            simp [this, hmi, hc, hd]
        · rw [if_neg fun hcond => hc ((validTableRunes_head_cond_iff c).mp hcond)]
          have : identHeadChar c = false := by simpa using hc
          simp [hmi, this, hd]
  · rw [if_pos (by simpa using hd)]
    simp [hd]

/-- C9: `Apply` validates configuration before any database access: the
validator accepts exactly the supported dialects with table names matching
`[A-Za-z_][A-Za-z0-9_]*`, and for any rejected configuration `Apply`
returns a configuration error with an empty operation log (no transaction,
no statement) and the database untouched. -/
theorem apply_rejects_invalid_options_before_db :
    (∀ opts : Options, validateOptions opts = none ↔
      (IsValidDialect opts.Dialect = true ∧ matchesIdent opts.TableName = true)) ∧
    (∀ (env : DbEnv) (db : Db) (migs : List String) (d : Dialect) (t : String),
      ¬ (IsValidDialect d = true ∧ matchesIdent t = true) →
      ∃ e : OptsError,
        Apply env db migs [WithDialect d, WithTableName t] =
          { db := db, log := [], err := some (ApplyError.invalidOptions e) }) := by
  refine ⟨validateOptions_none_iff, ?_⟩
  intro env db migs d t hbad
  have hopts : applyUserOptions 0 { Dialect := DialectSqlite, TableName := "migrations" }
      [WithDialect d, WithTableName t] = Except.ok { Dialect := d, TableName := t } := rfl
  cases hval : validateOptions { Dialect := d, TableName := t } with
  | none => exact absurd ((validateOptions_none_iff _).mp hval) hbad
  | some e =>
    refine ⟨e, ?_⟩
    unfold Apply
    rw [hopts]
    simp only [hval]

/-- Witness for C9: a table name starting with a digit is rejected with an
empty operation log. -/
theorem apply_rejects_invalid_options_before_db_witness :
    ∃ e : OptsError,
      Apply (DbEnv.mk true (fun _ _ => true) (fun _ => true) true true) Db.fresh []
          [WithDialect DialectSqlite, WithTableName "1bad"] =
        { db := Db.fresh, log := [], err := some (ApplyError.invalidOptions e) } :=
  apply_rejects_invalid_options_before_db.2
    (DbEnv.mk true (fun _ _ => true) (fun _ => true) true true) Db.fresh []
    DialectSqlite "1bad" (by decide)

/-! ## Applier lemmas: maxVersion, loops, transactions -/

lemma foldr_max_init (l : List Nat) (c : Int) (hc : -1 ≤ c) :
    l.foldr (fun (v : Nat) (m : Int) => max (v : Int) m) c =
      max (l.foldr (fun (v : Nat) (m : Int) => max (v : Int) m) (-1)) c := by
  induction l with
  | nil => simp [max_eq_right hc]
  | cons a t ih => rw [List.foldr_cons, List.foldr_cons, ih, max_assoc]

lemma maxVersion_append (l : List Nat) (x : Nat) :
    maxVersion (l ++ [x]) = max (maxVersion l) (x : Int) := by
  have hx : (-1 : Int) ≤ (x : Int) := le_trans (by norm_num) (Int.natCast_nonneg x)
  unfold maxVersion
  rw [List.foldr_append]
  have h1 : List.foldr (fun (v : Nat) (m : Int) => max (v : Int) m) (-1) [x] = (x : Int) := by
    show max (x : Int) (-1) = (x : Int)
    exact max_eq_left hx
  rw [h1, foldr_max_init l x hx]

lemma execMigStmts_versions (env : DbEnv) (version : Nat) :
    ∀ (stmts : List String) (i : Nat) (db : Db),
      (execMigStmts env version i stmts db).1.versions = db.versions := by
  intro stmts
  induction stmts with
  | nil => intro i db; rfl
  | cons stmt rest ih =>
    intro i db
    unfold execMigStmts
    by_cases hx : env.execOk stmt []
    · rw [if_pos hx]
      exact ih (i + 1) { db with applied := db.applied ++ [stmt] }
    · rw [if_neg hx]

lemma migLoop_versions_some (env : DbEnv) (ins : String) (last : Int) :
    ∀ (migs : List String) (v : Nat) (db : Db) (l : List Nat),
      db.versions = some l →
      ∃ l', (migLoop env ins last v migs db).1.versions = some l' := by
  intro migs
  induction migs with
  | nil => intro v db l h; exact ⟨l, h⟩
  | cons m rest ih =>
    intro v db l h
    unfold migLoop
    by_cases hskip : (v : Int) ≤ last
    · rw [if_pos hskip]; exact ih (v + 1) db l h
    · rw [if_neg hskip]
      cases hp : (execMigStmts env v 0 (SplitStatements m) db).2.2 with
      | some e =>
        simp only [hp]
        exact ⟨l, by rw [execMigStmts_versions]; exact h⟩
      | none =>
        simp only [hp]
        by_cases hins : env.execOk ins [(v : Int)]
        · rw [if_pos hins]
          exact ih (v + 1) _ _ rfl
        · rw [if_neg hins]
          exact ⟨l, by rw [execMigStmts_versions]; exact h⟩

lemma migLoop_all_skipped (env : DbEnv) (ins : String) (last : Int) :
    ∀ (migs : List String) (v : Nat) (db : Db),
      (∀ k : Nat, v ≤ k → k < v + migs.length → (k : Int) ≤ last) →
      migLoop env ins last v migs db = (db, [], none) := by
  intro migs
  induction migs with
  | nil => intro v db _; rfl
  | cons m rest ih =>
    intro v db h
    unfold migLoop
    rw [if_pos (h v (le_refl v) (by simp))]
    exact ih (v + 1) db fun k hk1 hk2 => h k (by omega) (by simp at hk2 ⊢; omega)

/-- After a successful run of the migration loop, every position-derived
version of the input list is at or below the recorded maximum version. -/
lemma migLoop_success_max (env : DbEnv) (ins : String) (last : Int) :
    ∀ (migs : List String) (v : Nat) (db : Db),
      1 ≤ v →
      last ≤ maxVersion (db.versions.getD []) →
      (∀ j : Nat, 1 ≤ j → j ≤ v - 1 → (j : Int) ≤ maxVersion (db.versions.getD [])) →
      (migLoop env ins last v migs db).2.2 = none →
      ∀ k : Nat, 1 ≤ k → k ≤ v - 1 + migs.length →
        (k : Int) ≤ maxVersion ((migLoop env ins last v migs db).1.versions.getD []) := by
  intro migs
  induction migs with
  | nil =>
    intro v db hv hlast hprev hsucc k hk1 hk2
    exact hprev k hk1 (by simpa using hk2)
  | cons m rest ih =>
    intro v db hv hlast hprev hsucc
    unfold migLoop at hsucc ⊢
    by_cases hskip : (v : Int) ≤ last
    · rw [if_pos hskip] at hsucc ⊢
      have hnew_prev : ∀ j : Nat, 1 ≤ j → j ≤ (v + 1) - 1 →
          (j : Int) ≤ maxVersion (db.versions.getD []) := by
        intro j hj1 hj2
        by_cases hjv : j ≤ v - 1
        · exact hprev j hj1 hjv
        · have hjeq : j = v := by omega
          subst hjeq
          exact le_trans hskip hlast
      intro k hk1 hk2
      exact ih (v + 1) db (by omega) hlast hnew_prev hsucc k hk1 (by simp at hk2 ⊢; omega)
    · rw [if_neg hskip] at hsucc ⊢
      cases hp : (execMigStmts env v 0 (SplitStatements m) db).2.2 with
      | some e => simp only [hp] at hsucc; exact absurd hsucc (by simp)
      | none =>
        simp only [hp] at hsucc ⊢
        by_cases hins : env.execOk ins [(v : Int)]
        · rw [if_pos hins] at hsucc ⊢
          have hvers : ({ (execMigStmts env v 0 (SplitStatements m) db).1 with
              versions := some ((execMigStmts env v 0 (SplitStatements m) db).1.versions.getD []
                ++ [v]) } : Db).versions.getD [] = db.versions.getD [] ++ [v] := by
            rw [show ({ (execMigStmts env v 0 (SplitStatements m) db).1 with
              versions := some ((execMigStmts env v 0 (SplitStatements m) db).1.versions.getD []
                ++ [v]) } : Db).versions = some ((execMigStmts env v 0
                  (SplitStatements m) db).1.versions.getD [] ++ [v]) from rfl]
            rw [execMigStmts_versions]
            rfl
          have hmax2 : maxVersion (({ (execMigStmts env v 0 (SplitStatements m) db).1 with
              versions := some ((execMigStmts env v 0 (SplitStatements m) db).1.versions.getD []
                ++ [v]) } : Db).versions.getD []) =
              max (maxVersion (db.versions.getD [])) (v : Int) := by
            rw [hvers, maxVersion_append]
          have hnew_last : last ≤ maxVersion (({ (execMigStmts env v 0 (SplitStatements m)
              db).1 with versions := some ((execMigStmts env v 0 (SplitStatements m)
                db).1.versions.getD [] ++ [v]) } : Db).versions.getD []) := by
            rw [hmax2]; exact le_trans hlast (le_max_left _ _)
          have hnew_prev : ∀ j : Nat, 1 ≤ j → j ≤ (v + 1) - 1 →
              (j : Int) ≤ maxVersion (({ (execMigStmts env v 0 (SplitStatements m) db).1 with
                versions := some ((execMigStmts env v 0 (SplitStatements m)
                  db).1.versions.getD [] ++ [v]) } : Db).versions.getD []) := by
            intro j hj1 hj2
            rw [hmax2]
            by_cases hjv : j ≤ v - 1
            · exact le_trans (hprev j hj1 hjv) (le_max_left _ _)
            · have hjeq : j = v := by omega
              subst hjeq
              exact le_max_right _ _
          intro k hk1 hk2
          exact ih (v + 1) _ (by omega) hnew_last hnew_prev hsucc k hk1
            (by simp at hk2 ⊢; omega)
        · rw [if_neg hins] at hsucc
          simp at hsucc

/-- Characterisation of `InTx` on the success path. -/
lemma InTx_eq_ok (env : DbEnv) (db : Db) (fn : Db → Db × List DbOp × Option TxError)
    (hb : env.beginOk = true) (hf : (fn db).2.2 = none) (hc : env.commitOk = true) :
    InTx env db fn = ((fn db).1, DbOp.beginTx :: (fn db).2.1 ++ [DbOp.commit], none) := by
  unfold InTx
  rw [if_neg (by simp [hb])]
  simp only [hf]
  rw [if_pos hc]

/-- A successful `InTx` implies begin, body and commit all succeeded. -/
lemma InTx_ok_extract (env : DbEnv) (db : Db) (fn : Db → Db × List DbOp × Option TxError)
    (h : (InTx env db fn).2.2 = none) :
    env.beginOk = true ∧ (fn db).2.2 = none ∧ env.commitOk = true := by
  unfold InTx at h
  by_cases hb : env.beginOk = false
  · rw [if_pos hb] at h; simp at h
  · rw [if_neg hb] at h
    have hb' : env.beginOk = true := by simpa using hb
    cases hf : (fn db).2.2 with
    | some e =>
      simp only [hf] at h
      split at h <;> simp at h
    | none =>
      simp only [hf] at h
      by_cases hc : env.commitOk
      · exact ⟨hb', rfl, by simpa using hc⟩
      · rw [if_neg hc] at h; simp at h

/-- Let-free characterisation of `applyBody`. -/
lemma applyBody_eq (c q ins t : String) (env : DbEnv) (migs : List String) (db0 : Db) :
    applyBody c q ins t env migs db0 =
      if env.execOk c [] = false then
        (db0, [DbOp.execCreate c], some (TxError.createTableFailed t))
      else if env.queryOk q = false then
        ({ db0 with versions := some (db0.versions.getD []) },
          [DbOp.execCreate c, DbOp.queryMaxVersion q], some TxError.readVersionFailed)
      else
        ((migLoop env ins (maxVersion (db0.versions.getD [])) 1 migs
            { db0 with versions := some (db0.versions.getD []) }).1,
          DbOp.execCreate c :: DbOp.queryMaxVersion q ::
            (migLoop env ins (maxVersion (db0.versions.getD [])) 1 migs
              { db0 with versions := some (db0.versions.getD []) }).2.1,
          (migLoop env ins (maxVersion (db0.versions.getD [])) 1 migs
            { db0 with versions := some (db0.versions.getD []) }).2.2) := rfl

/-- A successful `applyBody` implies the create and the query succeeded and
the result is the migration-loop result prefixed by the bookkeeping
operations. -/
lemma applyBody_ok (c q ins t : String) (env : DbEnv) (migs : List String) (db0 : Db)
    (h : (applyBody c q ins t env migs db0).2.2 = none) :
    env.execOk c [] = true ∧ env.queryOk q = true ∧
    (migLoop env ins (maxVersion (db0.versions.getD [])) 1 migs
      { db0 with versions := some (db0.versions.getD []) }).2.2 = none ∧
    applyBody c q ins t env migs db0 =
      ((migLoop env ins (maxVersion (db0.versions.getD [])) 1 migs
          { db0 with versions := some (db0.versions.getD []) }).1,
        DbOp.execCreate c :: DbOp.queryMaxVersion q ::
          (migLoop env ins (maxVersion (db0.versions.getD [])) 1 migs
            { db0 with versions := some (db0.versions.getD []) }).2.1, none) := by
  rw [applyBody_eq] at h ⊢
  by_cases hc : env.execOk c [] = false
  · rw [if_pos hc] at h; simp at h
  · rw [if_neg hc] at h ⊢
    by_cases hq : env.queryOk q = false
    · rw [if_pos hq] at h; simp at h
    · rw [if_neg hq] at h ⊢
      refine ⟨by simpa using hc, by simpa using hq, h, ?_⟩
      rw [h]

/-- Rebuilding an existing bookkeeping table is a no-op on the state. -/
lemma Db_create_noop (db : Db) (l : List Nat) (h : db.versions = some l) :
    ({ db with versions := some (db.versions.getD []) } : Db) = db := by
  cases db with
  | mk vs ap =>
    have h' : vs = some l := h
    subst h'
    rfl

/-- Idempotence at the level of one dialect routine: after a successful
run, a second run returns the same database, performs only the four
bookkeeping operations, and succeeds; moreover every position-derived
version is at or below the recorded maximum. -/
lemma applyGeneric_idempotent (c q ins : String) (d : Dialect) (t : String) (env : DbEnv)
    (db : Db) (migs : List String)
    (h : (applyGeneric c q ins d t env db migs).err = none) :
    applyGeneric c q ins d t env (applyGeneric c q ins d t env db migs).db migs =
      { db := (applyGeneric c q ins d t env db migs).db,
        log := [DbOp.beginTx, DbOp.execCreate c, DbOp.queryMaxVersion q, DbOp.commit],
        err := none } ∧
    ∀ k : Nat, 1 ≤ k → k ≤ migs.length →
      (k : Int) ≤ maxVersion ((applyGeneric c q ins d t env db migs).db.versions.getD []) := by
  have hin : (InTx env db (applyBody c q ins t env migs)).2.2 = none := by
    have h2 := h
    unfold applyGeneric at h2
    rwa [wrapResult_err_none] at h2
  obtain ⟨hb, hbody, hcommit⟩ := InTx_ok_extract env db _ hin
  obtain ⟨hc, hq, hloop, hbodyeq⟩ := applyBody_ok c q ins t env migs db hbody
  have hr1 : (applyGeneric c q ins d t env db migs).db =
      (migLoop env ins (maxVersion (db.versions.getD [])) 1 migs
        { db with versions := some (db.versions.getD []) }).1 := by
    unfold applyGeneric
    rw [wrapResult_db, InTx_eq_ok env db _ hb hbody hcommit]
    rw [hbodyeq]
  obtain ⟨L, hL⟩ := migLoop_versions_some env ins (maxVersion (db.versions.getD [])) migs 1
    { db with versions := some (db.versions.getD []) } (db.versions.getD []) rfl
  have hmax := migLoop_success_max env ins (maxVersion (db.versions.getD [])) migs 1
    { db with versions := some (db.versions.getD []) } (le_refl 1) (le_refl _)
    (fun j hj1 hj2 => absurd hj2 (by omega)) hloop
  have hbound : ∀ k : Nat, 1 ≤ k → k ≤ migs.length →
      (k : Int) ≤ maxVersion ((applyGeneric c q ins d t env db migs).db.versions.getD []) := by
    intro k hk1 hk2
    rw [hr1]
    exact hmax k hk1 (by omega)
  refine ⟨?_, hbound⟩
  have hr1v : (applyGeneric c q ins d t env db migs).db.versions = some L := by
    rw [hr1]; exact hL
  have hsecond : ∀ R : Db, R.versions = some L →
      (∀ k : Nat, 1 ≤ k → k ≤ migs.length → (k : Int) ≤ maxVersion (R.versions.getD [])) →
      applyGeneric c q ins d t env R migs =
        { db := R, log := [DbOp.beginTx, DbOp.execCreate c, DbOp.queryMaxVersion q,
            DbOp.commit], err := none } := by
    intro R hRv hRb
    have hnoop : ({ R with versions := some (R.versions.getD []) } : Db) = R :=
      Db_create_noop R L hRv
    have hskipall : migLoop env ins (maxVersion (R.versions.getD [])) 1 migs
        ({ R with versions := some (R.versions.getD []) } : Db) = (R, [], none) := by
      rw [hnoop]
      apply migLoop_all_skipped
      intro k hk1 hk2
      exact hRb k hk1 (by omega)
    have hbody2 : applyBody c q ins t env migs R =
        (R, [DbOp.execCreate c, DbOp.queryMaxVersion q], none) := by
      rw [applyBody_eq]
      rw [if_neg (by simp [hc]), if_neg (by simp [hq])]
      rw [hskipall]
    unfold applyGeneric
    rw [InTx_eq_ok env R _ hb (by rw [hbody2]) hcommit, hbody2]
    rfl
  exact hsecond _ hr1v hbound

/-- Successful `Apply` calls dispatch to one dialect routine determined by
the options alone, uniformly in the database argument. -/
lemma Apply_ok_shape (env : DbEnv) (db : Db) (migs : List String) (uopts : List ApplyOption)
    (h : (Apply env db migs uopts).err = none) :
    ∃ opts : Options,
      ((opts.Dialect = DialectSqlite ∧
          ∀ db' : Db, Apply env db' migs uopts = applySqlite env db' migs opts) ∨
        (opts.Dialect = DialectMysql ∧
          ∀ db' : Db, Apply env db' migs uopts = applyMysql env db' migs opts) ∨
        (opts.Dialect = DialectPostgres ∧
          ∀ db' : Db, Apply env db' migs uopts = applyPostgres env db' migs opts)) := by
  cases hopt : applyUserOptions 0 { Dialect := DialectSqlite, TableName := "migrations" }
      uopts with
  | error e =>
    unfold Apply at h
    rw [hopt] at h
    simp at h
  | ok opts =>
    refine ⟨opts, ?_⟩
    unfold Apply at h
    simp only [hopt] at h
    cases hval : validateOptions opts with
    | some ve => simp only [hval] at h; simp at h
    | none =>
      simp only [hval] at h
      by_cases h1 : opts.Dialect = DialectSqlite
      · refine Or.inl ⟨h1, fun db' => ?_⟩
        unfold Apply
        simp only [hopt, hval]
        rw [if_pos h1]
      · by_cases h2 : opts.Dialect = DialectMysql
        · refine Or.inr (Or.inl ⟨h2, fun db' => ?_⟩)
          unfold Apply
          simp only [hopt, hval]
          rw [if_neg h1, if_pos h2]
        · by_cases h3 : opts.Dialect = DialectPostgres
          · refine Or.inr (Or.inr ⟨h3, fun db' => ?_⟩)
            unfold Apply
            simp only [hopt, hval]
            rw [if_neg h1, if_neg h2, if_pos h3]
          · rw [if_neg h1, if_neg h2, if_neg h3] at h
            simp at h

/-- Helper for C2, stated for any function that agrees with one dialect
routine for every database argument: after a successful first run, the
second run returns the same database with no error, executes no migration
statement and no bookkeeping insert, and every position-derived version is
at or below the recorded maximum. -/
lemma applyGeneric_idem_conclusion (c q ins : String) (d : Dialect) (t : String)
    (env : DbEnv) (db : Db) (migs : List String) (F : Db → ApplyResult)
    (hF : ∀ db' : Db, F db' = applyGeneric c q ins d t env db' migs)
    (h : (F db).err = none) :
    (F (F db).db).db = (F db).db ∧ (F (F db).db).err = none ∧
    stmtTrace (F (F db).db).log = [] ∧ insertTrace (F (F db).db).log = [] ∧
    (∀ k : Nat, 1 ≤ k → k ≤ migs.length →
      (k : Int) ≤ maxVersion ((F db).db.versions.getD [])) := by
  rw [hF db] at h
  rw [hF db, hF ((applyGeneric c q ins d t env db migs).db)]
  obtain ⟨hrec, hbound⟩ := applyGeneric_idempotent c q ins d t env db migs h
  exact ⟨by rw [hrec], by rw [hrec], by rw [hrec]; rfl, by rw [hrec]; rfl, hbound⟩

/-- C2: if one `Apply` call succeeds, calling `Apply` again with the same
migration sequence and options produces the identical final database
state, succeeds, and performs zero migration-statement executions and zero
version inserts beyond the bookkeeping work, because every
position-derived version is at or below the recorded maximum and is
therefore skipped. -/
theorem apply_reapply_idempotent (env : DbEnv) (db : Db) (migs : List String)
    (uopts : List ApplyOption) (h : (Apply env db migs uopts).err = none) :
    (Apply env (Apply env db migs uopts).db migs uopts).db = (Apply env db migs uopts).db ∧
    (Apply env (Apply env db migs uopts).db migs uopts).err = none ∧
    stmtTrace (Apply env (Apply env db migs uopts).db migs uopts).log = [] ∧
    insertTrace (Apply env (Apply env db migs uopts).db migs uopts).log = [] ∧
    (∀ k : Nat, 1 ≤ k → k ≤ migs.length →
      (k : Int) ≤ maxVersion ((Apply env db migs uopts).db.versions.getD [])) := by
  obtain ⟨opts, hcase⟩ := Apply_ok_shape env db migs uopts h
  rcases hcase with ⟨_, heq⟩ | ⟨_, heq⟩ | ⟨_, heq⟩
  · exact applyGeneric_idem_conclusion _ _ _ _ _ env db migs
      (fun db' => Apply env db' migs uopts)
      (fun db' => by show Apply env db' migs uopts = _; rw [heq db', applySqlite_eq]) h
  · exact applyGeneric_idem_conclusion _ _ _ _ _ env db migs
      (fun db' => Apply env db' migs uopts)
      (fun db' => by show Apply env db' migs uopts = _; rw [heq db', applyMysql_eq]) h
  · exact applyGeneric_idem_conclusion _ _ _ _ _ env db migs
      (fun db' => Apply env db' migs uopts)
      (fun db' => by show Apply env db' migs uopts = _; rw [heq db', applyPostgres_eq]) h

/-- Witness for C2: re-applying one migration on a fresh database returns
the same state with no error. -/
theorem apply_reapply_idempotent_witness :
    (Apply envOk (Apply envOk Db.fresh ["SELECT 1"] []).db ["SELECT 1"] []).db =
        (Apply envOk Db.fresh ["SELECT 1"] []).db ∧
      (Apply envOk (Apply envOk Db.fresh ["SELECT 1"] []).db ["SELECT 1"] []).err = none :=
  ⟨(apply_reapply_idempotent envOk Db.fresh ["SELECT 1"] [] (by decide)).1,
    (apply_reapply_idempotent envOk Db.fresh ["SELECT 1"] [] (by decide)).2.1⟩

/-! ## C3: the recorded versions form a contiguous prefix -/

lemma maxVersion_range' (N : Nat) :
    maxVersion (List.range' 1 N) = if N = 0 then (-1 : Int) else (N : Int) := by
  induction N with
  | zero => rfl
  | succ n ih =>
    rw [List.range'_1_concat, maxVersion_append, ih]
    by_cases hn : n = 0
    · subst hn; simp
    · rw [if_neg hn, if_neg (by omega)]
      have h1 : (1 + n : Nat) = n + 1 := by omega
      rw [h1]
      push_cast
      exact max_eq_right (by omega)

lemma maxVersion_range'_skip_iff (N : Nat) :
    ∀ k : Nat, 1 ≤ k → ((k : Int) ≤ maxVersion (List.range' 1 N) ↔ k ≤ N) := by
  intro k hk
  rw [maxVersion_range']
  split <;> omega

/-- The migration loop keeps the recorded versions a contiguous prefix
`{1..M}`: versions are inserted in ascending order, each equal to one plus
the current maximum. -/
lemma migLoop_range (env : DbEnv) (ins : String) (last : Int) (N0 : Nat)
    (hlast : ∀ k : Nat, 1 ≤ k → ((k : Int) ≤ last ↔ k ≤ N0)) :
    ∀ (migs : List String) (v : Nat) (db : Db),
      1 ≤ v →
      db.versions = some (List.range' 1 (max N0 (v - 1))) →
      (migLoop env ins last v migs db).2.2 = none →
      ∃ M, (migLoop env ins last v migs db).1.versions = some (List.range' 1 M) := by
  intro migs
  induction migs with
  | nil => intro v db _ hdb _; exact ⟨max N0 (v - 1), hdb⟩
  | cons m rest ih =>
    intro v db hv hdb hsucc
    unfold migLoop at hsucc ⊢
    by_cases hskip : (v : Int) ≤ last
    · rw [if_pos hskip] at hsucc ⊢
      have hvN : v ≤ N0 := (hlast v hv).mp hskip
      have hMeq : max N0 ((v + 1) - 1) = max N0 (v - 1) := by omega
      exact ih (v + 1) db (by omega) (by rw [hMeq]; exact hdb) hsucc
    · rw [if_neg hskip] at hsucc ⊢
      have hvN : ¬ v ≤ N0 := fun hv' => hskip ((hlast v hv).mpr hv')
      have hM : max N0 (v - 1) = v - 1 := by omega
      cases hp : (execMigStmts env v 0 (SplitStatements m) db).2.2 with
      | some e => simp only [hp] at hsucc; exact absurd hsucc (by simp)
      | none =>
        simp only [hp] at hsucc ⊢
        by_cases hins : env.execOk ins [(v : Int)]
        · rw [if_pos hins] at hsucc ⊢
          refine ih (v + 1) _ (by omega) ?_ hsucc
          show some ((execMigStmts env v 0 (SplitStatements m) db).1.versions.getD [] ++ [v]) =
            some (List.range' 1 (max N0 ((v + 1) - 1)))
          rw [execMigStmts_versions, hdb, hM]
          have h1 : max N0 ((v + 1) - 1) = v := by omega
          have h2 : List.range' 1 ((v - 1) + 1) = List.range' 1 (v - 1) ++ [1 + (v - 1)] :=
            List.range'_1_concat 1 (v - 1)
          have h3 : (v - 1) + 1 = v := by omega
          have h4 : 1 + (v - 1) = v := by omega
          rw [h1, ← h3, h2, h3, h4]
          rfl
        · rw [if_neg hins] at hsucc; exact absurd hsucc (by simp)

/-- One dialect routine preserves contiguity of the recorded versions. -/
lemma applyGeneric_contiguous (c q ins : String) (d : Dialect) (t : String) (env : DbEnv)
    (db : Db) (migs : List String) (h : ∃ N, db.versions.getD [] = List.range' 1 N) :
    ∃ M, (applyGeneric c q ins d t env db migs).db.versions.getD [] = List.range' 1 M := by
  rcases applyGeneric_db c q ins d t env db migs with heq | hok
  · rw [heq]; exact h
  · obtain ⟨N, hN⟩ := h
    have hin : (InTx env db (applyBody c q ins t env migs)).2.2 = none := by
      unfold applyGeneric at hok
      rwa [wrapResult_err_none] at hok
    obtain ⟨hb, hbody, hcommit⟩ := InTx_ok_extract env db _ hin
    obtain ⟨hc, hq, hloop, hbodyeq⟩ := applyBody_ok c q ins t env migs db hbody
    have hr1 : (applyGeneric c q ins d t env db migs).db =
        (migLoop env ins (maxVersion (db.versions.getD [])) 1 migs
          { db with versions := some (db.versions.getD []) }).1 := by
      unfold applyGeneric
      rw [wrapResult_db, InTx_eq_ok env db _ hb hbody hcommit]
      rw [hbodyeq]
    have hdb1 : ({ db with versions := some (db.versions.getD []) } : Db).versions =
        some (List.range' 1 (max N (1 - 1))) := by
      show some (db.versions.getD []) = some (List.range' 1 (max N 0))
      rw [hN, Nat.max_zero]
    obtain ⟨M, hM⟩ := migLoop_range env ins (maxVersion (db.versions.getD [])) N
      (by rw [hN]; exact maxVersion_range'_skip_iff N) migs 1
      { db with versions := some (db.versions.getD []) } (le_refl 1) hdb1 hloop
    refine ⟨M, ?_⟩
    rw [hr1, hM]
    rfl

/-- `Apply` preserves contiguity of the recorded versions. -/
lemma Apply_preserves_contiguous (env : DbEnv) (db : Db) (migs : List String)
    (uopts : List ApplyOption) (h : ∃ N, db.versions.getD [] = List.range' 1 N) :
    ∃ M, (Apply env db migs uopts).db.versions.getD [] = List.range' 1 M := by
  rcases Apply_db_or_ok env db migs uopts with heq | hok
  · rw [heq]; exact h
  · obtain ⟨opts, hcase⟩ := Apply_ok_shape env db migs uopts hok
    rcases hcase with ⟨_, heq⟩ | ⟨_, heq⟩ | ⟨_, heq⟩
    · rw [heq db, applySqlite_eq]; exact applyGeneric_contiguous _ _ _ _ _ env db migs h
    · rw [heq db, applyMysql_eq]; exact applyGeneric_contiguous _ _ _ _ _ env db migs h
    · rw [heq db, applyPostgres_eq]; exact applyGeneric_contiguous _ _ _ _ _ env db migs h

/-- C3: in every database state reachable by any sequence of successful or
failed `Apply` calls, the recorded versions are exactly `{1, ..., N}` for
some `N ≥ 0` (in ascending order, hence at most one record per version and
never a gap). -/
theorem reachable_versions_contiguous (db : Db) (h : Reachable db) :
    ∃ N, db.versions.getD [] = List.range' 1 N := by
  induction h with
  | init => exact ⟨0, rfl⟩
  | step db0 env migs uopts _ ih => exact Apply_preserves_contiguous env db0 migs uopts ih

/-- Witness for C3: the state after one concrete `Apply` call on a fresh
database records a contiguous prefix. -/
theorem reachable_versions_contiguous_witness :
    ∃ N, (Apply envOk Db.fresh ["SELECT 1", "SELECT 2"] []).db.versions.getD [] =
      List.range' 1 N :=
  reachable_versions_contiguous _
    (Reachable.step Db.fresh envOk ["SELECT 1", "SELECT 2"] [] Reachable.init)

/-! ## C10: equivalence of the three dialect routines -/

lemma stmtTrace_append (a b : List DbOp) : stmtTrace (a ++ b) = stmtTrace a ++ stmtTrace b := by
  unfold stmtTrace
  rw [List.filterMap_append]

lemma insertTrace_append (a b : List DbOp) :
    insertTrace (a ++ b) = insertTrace a ++ insertTrace b := by
  unfold insertTrace
  rw [List.filterMap_append]

lemma stmtTrace_cons_insert (x : String) (v : Nat) (l : List DbOp) :
    stmtTrace (DbOp.execInsert x v :: l) = stmtTrace l := rfl

lemma insertTrace_cons_insert (x : String) (v : Nat) (l : List DbOp) :
    insertTrace (DbOp.execInsert x v :: l) = v :: insertTrace l := rfl

lemma stmtTrace_wrap (a : DbOp) (l : List DbOp) (b : DbOp)
    (ha : stmtTrace [a] = []) (hb : stmtTrace [b] = []) :
    stmtTrace (a :: l ++ [b]) = stmtTrace l := by
  show stmtTrace ([a] ++ (l ++ [b])) = _
  rw [stmtTrace_append, stmtTrace_append, ha, hb]
  simp

lemma insertTrace_wrap (a : DbOp) (l : List DbOp) (b : DbOp)
    (ha : insertTrace [a] = []) (hb : insertTrace [b] = []) :
    insertTrace (a :: l ++ [b]) = insertTrace l := by
  show insertTrace ([a] ++ (l ++ [b])) = _
  rw [insertTrace_append, insertTrace_append, ha, hb]
  simp

/-- The migration loop depends on the insert fragment only through the
judgement of the driver: with agreeing drivers the final state, the error,
the executed migration statements and the inserted versions coincide. -/
lemma migLoop_congr_ins (env : DbEnv) (ins1 ins2 : String) (last : Int)
    (hins : ∀ v : Nat, env.execOk ins1 [(v : Int)] = env.execOk ins2 [(v : Int)]) :
    ∀ (migs : List String) (v : Nat) (db : Db),
      (migLoop env ins1 last v migs db).1 = (migLoop env ins2 last v migs db).1 ∧
      (migLoop env ins1 last v migs db).2.2 = (migLoop env ins2 last v migs db).2.2 ∧
      stmtTrace (migLoop env ins1 last v migs db).2.1 =
        stmtTrace (migLoop env ins2 last v migs db).2.1 ∧
      insertTrace (migLoop env ins1 last v migs db).2.1 =
        insertTrace (migLoop env ins2 last v migs db).2.1 := by
  intro migs
  induction migs with
  | nil => intro v db; exact ⟨rfl, rfl, rfl, rfl⟩
  | cons m rest ih =>
    intro v db
    unfold migLoop
    by_cases hskip : (v : Int) ≤ last
    · rw [if_pos hskip, if_pos hskip]; exact ih (v + 1) db
    · rw [if_neg hskip, if_neg hskip]
      cases hp : (execMigStmts env v 0 (SplitStatements m) db).2.2 with
      | some e => simp [hp]
      | none =>
        simp only [hp]
        by_cases h1 : env.execOk ins1 [(v : Int)]
        · have h2 : env.execOk ins2 [(v : Int)] = true := by rw [← hins v]; exact h1
          rw [if_pos h1, if_pos h2]
          obtain ⟨ha, hb2, hc2, hd2⟩ := ih (v + 1)
            { (execMigStmts env v 0 (SplitStatements m) db).1 with
              versions := some ((execMigStmts env v 0
                (SplitStatements m) db).1.versions.getD [] ++ [v]) }
          refine ⟨ha, hb2, ?_, ?_⟩
          · show stmtTrace ((execMigStmts env v 0 (SplitStatements m) db).2.1 ++
              DbOp.execInsert ins1 v :: _) = stmtTrace ((execMigStmts env v 0
                (SplitStatements m) db).2.1 ++ DbOp.execInsert ins2 v :: _)
            rw [stmtTrace_append, stmtTrace_append, stmtTrace_cons_insert,
              stmtTrace_cons_insert, hc2]
          · show insertTrace ((execMigStmts env v 0 (SplitStatements m) db).2.1 ++
              DbOp.execInsert ins1 v :: _) = insertTrace ((execMigStmts env v 0
                (SplitStatements m) db).2.1 ++ DbOp.execInsert ins2 v :: _)
            rw [insertTrace_append, insertTrace_append, insertTrace_cons_insert,
              insertTrace_cons_insert, hd2]
        · have h2 : ¬ env.execOk ins2 [(v : Int)] = true := by rw [← hins v]; exact h1
          rw [if_neg h1, if_neg h2]
          refine ⟨rfl, rfl, ?_, ?_⟩
          · rw [stmtTrace_append, stmtTrace_append]
            rfl
          · rw [insertTrace_append, insertTrace_append]
            rfl

/-- The transaction body with agreeing drivers: same state, same error,
same migration statements, same inserted versions. -/
lemma applyBody_congr (c1 q1 i1 c2 q2 i2 t : String) (env : DbEnv) (migs : List String)
    (db0 : Db)
    (hc : env.execOk c1 [] = env.execOk c2 [])
    (hq : env.queryOk q1 = env.queryOk q2)
    (hins : ∀ v : Nat, env.execOk i1 [(v : Int)] = env.execOk i2 [(v : Int)]) :
    (applyBody c1 q1 i1 t env migs db0).1 = (applyBody c2 q2 i2 t env migs db0).1 ∧
    (applyBody c1 q1 i1 t env migs db0).2.2 = (applyBody c2 q2 i2 t env migs db0).2.2 ∧
    stmtTrace (applyBody c1 q1 i1 t env migs db0).2.1 =
      stmtTrace (applyBody c2 q2 i2 t env migs db0).2.1 ∧
    insertTrace (applyBody c1 q1 i1 t env migs db0).2.1 =
      insertTrace (applyBody c2 q2 i2 t env migs db0).2.1 := by
  rw [applyBody_eq, applyBody_eq]
  by_cases hcf : env.execOk c1 [] = false
  · have hcf2 : env.execOk c2 [] = false := by rw [← hc]; exact hcf
    rw [if_pos hcf, if_pos hcf2]
    exact ⟨rfl, rfl, rfl, rfl⟩
  · have hcf2 : ¬ env.execOk c2 [] = false := by rw [← hc]; exact hcf
    rw [if_neg hcf, if_neg hcf2]
    by_cases hqf : env.queryOk q1 = false
    · have hqf2 : env.queryOk q2 = false := by rw [← hq]; exact hqf
      rw [if_pos hqf, if_pos hqf2]
      exact ⟨rfl, rfl, rfl, rfl⟩
    · have hqf2 : ¬ env.queryOk q2 = false := by rw [← hq]; exact hqf
      rw [if_neg hqf, if_neg hqf2]
      obtain ⟨ha, hb2, hc2, hd2⟩ := migLoop_congr_ins env i1 i2
        (maxVersion (db0.versions.getD [])) hins migs 1
        { db0 with versions := some (db0.versions.getD []) }
      exact ⟨ha, hb2, hc2, hd2⟩

/-- One dialect routine with agreeing drivers, compared to another: equal
final state, equal underlying transaction error, equal migration
statements, equal inserted versions. -/
lemma applyGeneric_congr (c1 q1 i1 c2 q2 i2 : String) (d1 d2 : Dialect) (t : String)
    (env : DbEnv) (db : Db) (migs : List String)
    (hc : env.execOk c1 [] = env.execOk c2 [])
    (hq : env.queryOk q1 = env.queryOk q2)
    (hins : ∀ v : Nat, env.execOk i1 [(v : Int)] = env.execOk i2 [(v : Int)]) :
    (applyGeneric c1 q1 i1 d1 t env db migs).db = (applyGeneric c2 q2 i2 d2 t env db migs).db ∧
    txErrOf (applyGeneric c1 q1 i1 d1 t env db migs).err =
      txErrOf (applyGeneric c2 q2 i2 d2 t env db migs).err ∧
    stmtTrace (applyGeneric c1 q1 i1 d1 t env db migs).log =
      stmtTrace (applyGeneric c2 q2 i2 d2 t env db migs).log ∧
    insertTrace (applyGeneric c1 q1 i1 d1 t env db migs).log =
      insertTrace (applyGeneric c2 q2 i2 d2 t env db migs).log := by
  obtain ⟨ha, hb2, hc2, hd2⟩ := applyBody_congr c1 q1 i1 c2 q2 i2 t env migs db hc hq hins
  unfold applyGeneric InTx
  by_cases hbg : env.beginOk = false
  · rw [if_pos hbg, if_pos hbg]
    exact ⟨rfl, rfl, rfl, rfl⟩
  · rw [if_neg hbg, if_neg hbg]
    cases he : (applyBody c1 q1 i1 t env migs db).2.2 with
    | some e =>
      have he2 : (applyBody c2 q2 i2 t env migs db).2.2 = some e := by rw [← hb2]; exact he
      simp only [he, he2]
      by_cases hrb : env.rollbackOk
      · rw [if_pos hrb, if_pos hrb]
        unfold wrapResult
        refine ⟨rfl, rfl, ?_, ?_⟩
        · show stmtTrace (DbOp.beginTx :: (applyBody c1 q1 i1 t env migs db).2.1 ++
            [DbOp.rollback]) = stmtTrace (DbOp.beginTx ::
              (applyBody c2 q2 i2 t env migs db).2.1 ++ [DbOp.rollback])
          rw [stmtTrace_wrap DbOp.beginTx _ DbOp.rollback rfl rfl, stmtTrace_wrap DbOp.beginTx _ DbOp.rollback rfl rfl, hc2]
        · show insertTrace (DbOp.beginTx :: (applyBody c1 q1 i1 t env migs db).2.1 ++
            [DbOp.rollback]) = insertTrace (DbOp.beginTx ::
              (applyBody c2 q2 i2 t env migs db).2.1 ++ [DbOp.rollback])
          rw [insertTrace_wrap DbOp.beginTx _ DbOp.rollback rfl rfl, insertTrace_wrap DbOp.beginTx _ DbOp.rollback rfl rfl, hd2]
      · rw [if_neg hrb, if_neg hrb]
        unfold wrapResult
        refine ⟨rfl, rfl, ?_, ?_⟩
        · show stmtTrace (DbOp.beginTx :: (applyBody c1 q1 i1 t env migs db).2.1 ++
            [DbOp.rollback]) = stmtTrace (DbOp.beginTx ::
              (applyBody c2 q2 i2 t env migs db).2.1 ++ [DbOp.rollback])
          rw [stmtTrace_wrap DbOp.beginTx _ DbOp.rollback rfl rfl, stmtTrace_wrap DbOp.beginTx _ DbOp.rollback rfl rfl, hc2]
        · show insertTrace (DbOp.beginTx :: (applyBody c1 q1 i1 t env migs db).2.1 ++
            [DbOp.rollback]) = insertTrace (DbOp.beginTx ::
              (applyBody c2 q2 i2 t env migs db).2.1 ++ [DbOp.rollback])
          rw [insertTrace_wrap DbOp.beginTx _ DbOp.rollback rfl rfl, insertTrace_wrap DbOp.beginTx _ DbOp.rollback rfl rfl, hd2]
    | none =>
      have he2 : (applyBody c2 q2 i2 t env migs db).2.2 = none := by rw [← hb2]; exact he
      simp only [he, he2]
      by_cases hcm : env.commitOk
      · rw [if_pos hcm, if_pos hcm]
        unfold wrapResult
        refine ⟨ha, rfl, ?_, ?_⟩
        · show stmtTrace (DbOp.beginTx :: (applyBody c1 q1 i1 t env migs db).2.1 ++
            [DbOp.commit]) = stmtTrace (DbOp.beginTx ::
              (applyBody c2 q2 i2 t env migs db).2.1 ++ [DbOp.commit])
          rw [stmtTrace_wrap DbOp.beginTx _ DbOp.commit rfl rfl, stmtTrace_wrap DbOp.beginTx _ DbOp.commit rfl rfl, hc2]
        · show insertTrace (DbOp.beginTx :: (applyBody c1 q1 i1 t env migs db).2.1 ++
            [DbOp.commit]) = insertTrace (DbOp.beginTx ::
              (applyBody c2 q2 i2 t env migs db).2.1 ++ [DbOp.commit])
          rw [insertTrace_wrap DbOp.beginTx _ DbOp.commit rfl rfl, insertTrace_wrap DbOp.beginTx _ DbOp.commit rfl rfl, hd2]
      · rw [if_neg hcm, if_neg hcm]
        unfold wrapResult
        refine ⟨rfl, rfl, ?_, ?_⟩
        · show stmtTrace (DbOp.beginTx :: (applyBody c1 q1 i1 t env migs db).2.1 ++
            [DbOp.commit]) = stmtTrace (DbOp.beginTx ::
              (applyBody c2 q2 i2 t env migs db).2.1 ++ [DbOp.commit])
          rw [stmtTrace_wrap DbOp.beginTx _ DbOp.commit rfl rfl, stmtTrace_wrap DbOp.beginTx _ DbOp.commit rfl rfl, hc2]
        · show insertTrace (DbOp.beginTx :: (applyBody c1 q1 i1 t env migs db).2.1 ++
            [DbOp.commit]) = insertTrace (DbOp.beginTx ::
              (applyBody c2 q2 i2 t env migs db).2.1 ++ [DbOp.commit])
          rw [insertTrace_wrap DbOp.beginTx _ DbOp.commit rfl rfl, insertTrace_wrap DbOp.beginTx _ DbOp.commit rfl rfl, hd2]

/-- C10: the three dialect routines are equivalent up to the literal SQL
text of the three bookkeeping fragments: whenever the driver judges the
corresponding fragments alike, `applySqlite`, `applyMysql` and
`applyPostgres` produce the same final database state, the same underlying
transaction error, execute the same sequence of migration statements and
insert the same versions. -/
theorem dialect_routines_equivalent (env : DbEnv) (db : Db) (migs : List String)
    (opts : Options) :
    ((env.execOk (sqliteCreateStmt opts.TableName) [] =
        env.execOk (mysqlCreateStmt opts.TableName) []) →
      (env.queryOk (sqliteQueryLast opts.TableName) =
        env.queryOk (mysqlQueryLast opts.TableName)) →
      (∀ v : Nat, env.execOk (sqliteInsertStmt opts.TableName) [(v : Int)] =
        env.execOk (mysqlInsertStmt opts.TableName) [(v : Int)]) →
      ((applySqlite env db migs opts).db = (applyMysql env db migs opts).db ∧
        txErrOf (applySqlite env db migs opts).err = txErrOf (applyMysql env db migs opts).err ∧
        stmtTrace (applySqlite env db migs opts).log =
          stmtTrace (applyMysql env db migs opts).log ∧
        insertTrace (applySqlite env db migs opts).log =
          insertTrace (applyMysql env db migs opts).log)) ∧
    ((env.execOk (sqliteCreateStmt opts.TableName) [] =
        env.execOk (postgresCreateStmt opts.TableName) []) →
      (env.queryOk (sqliteQueryLast opts.TableName) =
        env.queryOk (postgresQueryLast opts.TableName)) →
      (∀ v : Nat, env.execOk (sqliteInsertStmt opts.TableName) [(v : Int)] =
        env.execOk (postgresInsertStmt opts.TableName) [(v : Int)]) →
      ((applySqlite env db migs opts).db = (applyPostgres env db migs opts).db ∧
        txErrOf (applySqlite env db migs opts).err =
          txErrOf (applyPostgres env db migs opts).err ∧
        stmtTrace (applySqlite env db migs opts).log =
          stmtTrace (applyPostgres env db migs opts).log ∧
        insertTrace (applySqlite env db migs opts).log =
          insertTrace (applyPostgres env db migs opts).log)) := by
  constructor
  · intro hc hq hins
    rw [applySqlite_eq, applyMysql_eq]
    exact applyGeneric_congr _ _ _ _ _ _ DialectSqlite DialectMysql opts.TableName
      env db migs hc hq hins
  · intro hc hq hins
    rw [applySqlite_eq, applyPostgres_eq]
    exact applyGeneric_congr _ _ _ _ _ _ DialectSqlite DialectPostgres opts.TableName
      env db migs hc hq hins

/-- Witness for C10: with a driver accepting everything, the SQLite and
MySQL routines give the same state on a concrete run. -/
theorem dialect_routines_equivalent_witness :
    (applySqlite (DbEnv.mk true (fun _ _ => true) (fun _ => true) true true) Db.fresh
        ["SELECT 1"] { Dialect := DialectSqlite, TableName := "m" }).db =
      (applyMysql (DbEnv.mk true (fun _ _ => true) (fun _ => true) true true) Db.fresh
        ["SELECT 1"] { Dialect := DialectSqlite, TableName := "m" }).db :=
  ((dialect_routines_equivalent (DbEnv.mk true (fun _ _ => true) (fun _ => true) true true)
      Db.fresh ["SELECT 1"] { Dialect := DialectSqlite, TableName := "m" }).1
    rfl rfl (fun _ => rfl)).1

/-- Witness for C1: on a fresh database, a single migration whose only
statement fails yields a statement-failure error and leaves the database
untouched. -/
theorem apply_statement_failure_is_atomic_witness :
    (Apply envBoom Db.fresh ["BOOM"] []).err =
        some (ApplyError.applyFailed DialectSqlite (TxError.stmtFailed 1 1)) ∧
      isStmtFailure (ApplyError.applyFailed DialectSqlite (TxError.stmtFailed 1 1)) = true ∧
      (Apply envBoom Db.fresh ["BOOM"] []).db = Db.fresh :=
  ⟨by decide, by decide,
    apply_statement_failure_is_atomic envBoom Db.fresh ["BOOM"] []
      (ApplyError.applyFailed DialectSqlite (TxError.stmtFailed 1 1)) (by decide) (by decide)⟩

end Migrations
